import Mathlib

/-!
Verification of the Quick Presets management subsystem
(`src/client/src/lib/quick-presets.ts` with the built-in catalog from
`src/client/src/lib/ai-providers.ts`).

The TypeScript module is embedded shallowly:

* `QuickPreset` records become a Lean structure; optional fields become
  `Option` (`none` models an absent / `undefined` field, which JavaScript
  distinguishes from an explicit `false`).
* JavaScript's in-place `Array.prototype.sort` (invoked as
  `updated.models.sort()` inside `updateQuickPreset`) is modelled by an
  explicit effect: `updateQuickPresetFull` returns both the result list and
  the observable state of the input list after the call, because the sorted
  array aliases the input record's `models` array whenever the patch does
  not supply a `models` field (`{ ...preset, ...updates }` is a shallow
  copy). `MODEL_PRESETS[preset.sourceId]` is plain property access on an
  object literal, so it traverses the prototype chain: a `sourceId` naming
  an `Object.prototype` member (`"toString"`, `"constructor"`, …) yields a
  truthy inherited function/object, whose `.models` is `undefined` —
  spreading it throws, so update is `Except`-valued (the error payload is
  the observable input state at the throw, whose `models` were already
  sorted in place by the left operand of `!==`).
* The default string comparator of `Array.prototype.sort` compares UTF-16
  code units; `Array.prototype.sort` with a consistent comparator is stable
  (ES2019), so it is embedded as a stable insertion sort over that order.
* The host id generator (`quick-${Date.now()}-${Math.random()}`) is an
  external collaborator ("a random/unique-id generator" in the spec); it is
  modelled as an explicit stream `gen : Nat → String` of the ids the host
  produces, and freshness hypotheses state the collaborator's contract.
* `JSON.stringify` / `JSON.parse` and `btoa` / `atob` are host primitives;
  they are implemented here (a compact and an indent-2 printer for the
  document shapes the module serializes, a general fueled JSON parser, and
  standard base64) following their ECMAScript semantics.
-/

namespace ManusQuickPresets

/-! ## JavaScript string order (UTF-16 code units) -/

/-- UTF-16 code units of a character, as JavaScript strings store them.
Characters above U+FFFF become a surrogate pair. -/
def utf16Units (c : Char) : List Nat :=
  if c.toNat < 0x10000 then [c.toNat]
  else [0xD800 + (c.toNat - 0x10000) / 0x400, 0xDC00 + (c.toNat - 0x10000) % 0x400]

/-- Code units of a whole string. -/
def strUnits (s : String) : List Nat := (s.data.map utf16Units).flatten

/-- Lexicographic strict order on code-unit lists. -/
def unitsLt : List Nat → List Nat → Bool
  | [], [] => false
  | [], _ :: _ => true
  | _ :: _, [] => false
  | a :: as, b :: bs => if a < b then true else if b < a then false else unitsLt as bs

/-- JavaScript's default string comparison (`a < b` on strings): lexicographic
on UTF-16 code units. -/
def jsStrLt (s t : String) : Bool := unitsLt (strUnits s) (strUnits t)

/-- Stable insertion of `x` into `l`: `x` is placed before the first element
that is not strictly below it, so earlier-arriving equals stay in front. -/
def insertSorted (ltb : α → α → Bool) (x : α) : List α → List α
  | [] => [x]
  | b :: bs => if ltb b x then b :: insertSorted ltb x bs else x :: b :: bs

/-- Stable insertion sort; extensionally equal to ECMAScript's
`Array.prototype.sort` (stable since ES2019) for a consistent comparator. -/
def insertionSort (ltb : α → α → Bool) : List α → List α
  | [] => []
  | x :: xs => insertSorted ltb x (insertionSort ltb xs)

/-- `models.sort()` — JavaScript default sort of a string array. -/
def jsSortStrings (l : List String) : List String := insertionSort jsStrLt l

/-! ## JSON string printing (compact), used by `JSON.stringify` comparisons -/

/-- Lowercase hex digit, as `JSON.stringify` emits in `\u00XX` escapes. -/
def hexDigitChar (n : Nat) : Char :=
  if n < 10 then Char.ofNat (48 + n) else Char.ofNat (87 + n)

/-- The escape `JSON.stringify` applies to one character of a string. -/
def escapeChar (c : Char) : List Char :=
  if c = '"' then ['\\', '"']
  else if c = '\\' then ['\\', '\\']
  else if c = Char.ofNat 8 then ['\\', 'b']
  else if c = Char.ofNat 9 then ['\\', 't']
  else if c = Char.ofNat 10 then ['\\', 'n']
  else if c = Char.ofNat 12 then ['\\', 'f']
  else if c = Char.ofNat 13 then ['\\', 'r']
  else if c.toNat < 0x20 then
    ['\\', 'u', '0', '0', hexDigitChar (c.toNat / 16), hexDigitChar (c.toNat % 16)]
  else [c]

/-- Escaped body of a JSON string literal. -/
def escapeList (s : List Char) : List Char := (s.map escapeChar).flatten

/-- `JSON.stringify` of a string. -/
def printStr (s : String) : List Char := '"' :: (escapeList s.data ++ ['"'])

/-- Comma-join of rendered items. -/
def joinComma : List (List Char) → List Char
  | [] => []
  | [x] => x
  | x :: y :: rest => x ++ ',' :: joinComma (y :: rest)

/-- `JSON.stringify` (compact) of an array of strings. -/
def printStrArrC (ss : List String) : List Char :=
  '[' :: (joinComma (ss.map printStr) ++ [']'])

/-! ## Data model (`QuickPreset` interface and the built-in catalog) -/

/-- `sourceType: 'built-in' | 'custom'`. -/
inductive SourceType where
  | builtIn
  | custom
deriving DecidableEq, Repr

/-- The `QuickPreset` interface. `Option` fields model optional (possibly
`undefined`) properties; `none` is an absent property. -/
structure QuickPreset where
  id : String
  sourceId : String
  sourceType : SourceType
  name : String
  description : Option String
  models : List String
  isModified : Bool
  isFavorite : Option Bool
  usageCount : Option Nat
  lastUsedAt : Option String
deriving DecidableEq, Repr

/-- Truthiness of `preset.isFavorite` (absent counts as false). -/
def isFavT (p : QuickPreset) : Bool := p.isFavorite.getD false

/-- One entry of the built-in `MODEL_PRESETS` catalog. -/
structure CatalogEntry where
  name : String
  models : List String
deriving DecidableEq, Repr

/-- The `MODEL_PRESETS` catalog from `ai-providers.ts`, in key order. -/
def MODEL_PRESETS : List (String × CatalogEntry) :=
  [ ("coding", CatalogEntry.mk "Coding Team"
      ["openai:GPT-4", "deepseek:DeepSeek Coder", "mistral:Codestral"]),
    ("creative", CatalogEntry.mk "Creative Writers"
      ["openai:GPT-4 Turbo", "anthropic:Claude 3 Opus", "butterfly:Manus"]),
    ("research", CatalogEntry.mk "Research Squad"
      ["perplexity:Perplexity Pro", "google:Gemini Pro", "anthropic:Claude 3 Sonnet"]),
    ("general", CatalogEntry.mk "General Purpose"
      ["openai:GPT-4", "anthropic:Claude 3 Sonnet", "google:Gemini Pro"]),
    ("fast", CatalogEntry.mk "Fast Responders"
      ["openai:GPT-3.5 Turbo", "anthropic:Claude 3 Haiku", "google:Gemini Nano"]) ]

/-- `MODEL_PRESETS[sourceId]` — property lookup in the catalog object. -/
def catalogFind (sourceId : String) : Option CatalogEntry :=
  (MODEL_PRESETS.find? (fun kv => kv.1 == sourceId)).map (fun kv => kv.2)

/-- `MODEL_PRESETS` is a plain object literal, so property access that
misses every own key continues along the prototype chain into
`Object.prototype`. These are its string-keyed members in a web engine
(ECMA-262 §20.2.3 plus the Annex B accessors), paired with the value of
each member's own `.name` property (`some` a string for the function
members, `none` for the `__proto__` accessor's result `Object.prototype`,
which has no `name`). All of these values are truthy, and none has a
`models` property. -/
def objectProtoMembers : List (String × Option String) :=
  [("constructor", some "Object"),
   ("hasOwnProperty", some "hasOwnProperty"),
   ("isPrototypeOf", some "isPrototypeOf"),
   ("propertyIsEnumerable", some "propertyIsEnumerable"),
   ("toLocaleString", some "toLocaleString"),
   ("toString", some "toString"),
   ("valueOf", some "valueOf"),
   ("__defineGetter__", some "__defineGetter__"),
   ("__defineSetter__", some "__defineSetter__"),
   ("__lookupGetter__", some "__lookupGetter__"),
   ("__lookupSetter__", some "__lookupSetter__"),
   ("__proto__", none)]

/-- The prototype-chain part of `MODEL_PRESETS[sourceId]`: `some nm` when
`sourceId` names an inherited `Object.prototype` member whose `.name` is
`nm`, `none` when the access truly yields `undefined`. -/
def protoFind (sourceId : String) : Option (Option String) :=
  (objectProtoMembers.find? (fun kv => kv.1 == sourceId)).map (fun kv => kv.2)

/-! ## Collection operations -/

/-- Input shape of one entry of `addQuickPresets`'s `newPresets` argument. -/
structure NewPresetEntry where
  sourceId : String
  sourceType : SourceType
  name : String
  description : Option String
  models : List String
deriving DecidableEq, Repr

/-- The record `addQuickPresets` builds for one new entry (fresh id,
`isModified: false`, `isFavorite: false`, `models` copied). -/
def freshQuickPreset (id : String) (e : NewPresetEntry) : QuickPreset :=
  { id := id
    sourceId := e.sourceId
    sourceType := e.sourceType
    name := e.name
    description := e.description
    models := e.models
    isModified := false
    isFavorite := some false
    usageCount := none
    lastUsedAt := none }

/-- Builds the appended records, drawing ids `gen k, gen (k+1), …` from the
host id generator stream. -/
def withIds (gen : Nat → String) : Nat → List NewPresetEntry → List QuickPreset
  | _, [] => []
  | k, e :: es => freshQuickPreset (gen k) e :: withIds gen (k + 1) es

/-- `addQuickPresets` — appends one fresh record per entry to the end. -/
def addQuickPresets (gen : Nat → String) (currentPresets : List QuickPreset)
    (newPresets : List NewPresetEntry) : List QuickPreset :=
  currentPresets ++ withIds gen 0 newPresets

/-- The `updates` argument of `updateQuickPreset`
(`Partial<Pick<QuickPreset, 'name' | 'models' | 'description' | 'isFavorite'>>`);
`none` means the field is absent from the patch. -/
structure UpdatePatch where
  name : Option String := none
  models : Option (List String) := none
  description : Option String := none
  isFavorite : Option Bool := none
deriving DecidableEq, Repr

/-- `{ ...preset, ...updates }` — shallow merge of the patch over the record. -/
def applyPatch (preset : QuickPreset) (u : UpdatePatch) : QuickPreset :=
  { preset with
    name := u.name.getD preset.name
    models := u.models.getD preset.models
    description := match u.description with
      | some d => some d
      | none => preset.description
    isFavorite := match u.isFavorite with
      | some b => some b
      | none => preset.isFavorite }

/-- Per-element body of `updateQuickPreset`'s `map`. On success (`.ok`),
the element of the result list together with the observable state of the
*input* element after the call; the second component differs from the input
exactly when the source line `updated.isModified = updated.name !==
source.name || JSON.stringify(updated.models.sort()) !==
JSON.stringify([...source.models].sort())` executes its right operand
(`||` short-circuits): then `updated.models`, which aliases `preset.models`
whenever the patch has no `models` field, is sorted in place.

The lookup `MODEL_PRESETS[preset.sourceId]` resolves own keys first
(`catalogFind`), then the prototype chain (`protoFind`). An inherited
`Object.prototype` member is truthy, so `if (source)` is entered: its
`.name` differs from any ordinary record name, giving `isModified := true`
by short-circuit; if the patched name *equals* the member's `.name`, the
right operand runs — `updated.models.sort()` mutates first, and then
`[...source.models]` spreads `undefined` and throws a `TypeError`. The
throw is the `.error` case, whose payload is the observable state of the
input element at the throw. -/
def updateOne (id : String) (u : UpdatePatch) (preset : QuickPreset) :
    Except QuickPreset (QuickPreset × QuickPreset) :=
  if preset.id ≠ id then Except.ok (preset, preset)
  else
    let updated := applyPatch preset u
    if preset.sourceType = SourceType.builtIn then
      match catalogFind preset.sourceId with
      | some source =>
        if updated.name ≠ source.name then
          Except.ok ({ updated with isModified := true }, preset)
        else
          let sorted := jsSortStrings updated.models
          let srcSorted := jsSortStrings source.models
          let modifiedFlag := decide (printStrArrC sorted ≠ printStrArrC srcSorted)
          Except.ok ({ updated with models := sorted, isModified := modifiedFlag },
           if u.models.isNone then { preset with models := sorted } else preset)
      | none =>
        match protoFind preset.sourceId with
        | some memberName =>
          if memberName ≠ some updated.name then
            Except.ok ({ updated with isModified := true }, preset)
          else
            Except.error
              (if u.models.isNone
                then { preset with models := jsSortStrings updated.models }
                else preset)
        | none => Except.ok (updated, preset)
    else Except.ok (updated, preset)

/-- The `presets.map(…)` of `updateQuickPreset`: the first throwing element
aborts the map and the exception propagates (elements after it are not
visited). `.ok` carries (result list, post-call input list); `.error`
carries the post-call input list at the propagated throw. -/
def updateFullGo (id : String) (u : UpdatePatch) :
    List QuickPreset → Except (List QuickPreset) (List QuickPreset × List QuickPreset)
  | [] => Except.ok ([], [])
  | p :: ps =>
    match updateOne id u p with
    | Except.error p2 => Except.error (p2 :: ps)
    | Except.ok (r, p2) =>
      match updateFullGo id u ps with
      | Except.error ps2 => Except.error (p2 :: ps2)
      | Except.ok (rs, ps2) => Except.ok (r :: rs, p2 :: ps2)

/-- `updateQuickPreset`, with the post-call state of the input list
alongside the returned list (JavaScript mutates the target's `models` array
in place in the branch described at `updateOne`). -/
def updateQuickPresetFull (presets : List QuickPreset) (id : String)
    (u : UpdatePatch) : Except (List QuickPreset) (List QuickPreset × List QuickPreset) :=
  updateFullGo id u presets

/-- The return value of `updateQuickPreset` (`.error` when the call
throws). -/
def updateQuickPreset (presets : List QuickPreset) (id : String)
    (u : UpdatePatch) : Except (List QuickPreset) (List QuickPreset) :=
  (updateQuickPresetFull presets id u).map (fun pr => pr.1)

/-- `removeQuickPreset` — `presets.filter(p => p.id !== id)`. -/
def removeQuickPreset (presets : List QuickPreset) (id : String) : List QuickPreset :=
  presets.filter (fun p => p.id != id)

/-- Insertion at a (clamped) index, as `Array.prototype.splice(i, 0, x)`
inserts. -/
def jsInsertAt (n : Nat) (a : α) : List α → List α
  | [] => [a]
  | x :: xs => match n with
    | 0 => a :: x :: xs
    | m + 1 => x :: jsInsertAt m a xs

/-- `reorderQuickPresets`. The element type is `Option QuickPreset` because
`const [removed] = result.splice(startIndex, 1)` destructures to the JS value
`undefined` (here `none`) when `startIndex` is out of range, and
`result.splice(endIndex, 0, removed)` then inserts that `undefined` into the
array. In-range inputs only ever produce `some` elements. -/
def reorderQuickPresets (presets : List QuickPreset) (startIndex endIndex : Nat) :
    List (Option QuickPreset) :=
  let result := presets.map some
  let removed := result.getD startIndex none
  let afterRemove := if startIndex < result.length then result.eraseIdx startIndex else result
  jsInsertAt (min endIndex afterRemove.length) removed afterRemove

/-- `toggleFavorite` — flips truthiness of `isFavorite` on matching ids
(`!preset.isFavorite` yields a definite boolean, so an absent field becomes
an explicit `true`). -/
def toggleFavorite (presets : List QuickPreset) (id : String) : List QuickPreset :=
  presets.map (fun p =>
    if p.id ≠ id then p else { p with isFavorite := some (!(isFavT p)) })

/-- The comparator passed to `sort` by `sortByFavorite`. -/
def favCompare (a b : QuickPreset) : Int :=
  if isFavT a && !(isFavT b) then -1
  else if !(isFavT a) && isFavT b then 1
  else 0

/-- `sortByFavorite` — `[...presets].sort(favCompare)`; the copy plus the
stable host sort is embedded as a stable insertion sort on the comparator's
strict order. -/
def sortByFavorite (presets : List QuickPreset) : List QuickPreset :=
  insertionSort (fun a b => favCompare a b < 0) presets

/-! ## General helper lemmas -/

/-- A map whose function fixes every member is the identity. -/
theorem list_map_eq_self (f : α → α) :
    ∀ l : List α, (∀ a ∈ l, f a = a) → l.map f = l := by
  intro l
  induction l with
  | nil => intro _; rfl
  | cons x xs ih =>
    intro h
    simp only [List.map_cons]
    rw [h x (List.mem_cons_self x xs), ih (fun a ha => h a (List.mem_cons_of_mem x ha))]

/-- Clamped insertion grows the length by one. -/
theorem jsInsertAt_length (a : α) : ∀ (n : Nat) (l : List α),
    (jsInsertAt n a l).length = l.length + 1 := by
  intro n l
  induction l generalizing n with
  | nil => simp [jsInsertAt]
  | cons x xs ih =>
    cases n with
    | zero => simp [jsInsertAt]
    | succ m => simp [jsInsertAt, ih]

/-- The inserted element sits at the insertion index. -/
theorem jsInsertAt_get_self (a : α) : ∀ (n : Nat) (l : List α), n ≤ l.length →
    (jsInsertAt n a l).get? n = some a := by
  intro n l
  induction l generalizing n with
  | nil =>
    intro h
    have : n = 0 := Nat.le_zero.mp h
    subst this
    rfl
  | cons x xs ih =>
    intro h
    cases n with
    | zero => rfl
    | succ m =>
      have hm : m ≤ xs.length := Nat.le_of_succ_le_succ h
      simpa [jsInsertAt] using ih m hm

/-! ## Lemmas about the id-generating append -/

theorem withIds_length (gen : Nat → String) :
    ∀ (es : List NewPresetEntry) (k : Nat), (withIds gen k es).length = es.length := by
  intro es
  induction es with
  | nil => intro k; rfl
  | cons e es ih => intro k; simp [withIds, ih]

theorem withIds_get (gen : Nat → String) :
    ∀ (es : List NewPresetEntry) (k i : Nat),
      (withIds gen k es).get? i = (es.get? i).map (fun e => freshQuickPreset (gen (k + i)) e) := by
  intro es
  induction es with
  | nil => intro k i; cases i <;> rfl
  | cons e es ih =>
    intro k i
    cases i with
    | zero => rfl
    | succ j =>
      have h1 : (withIds gen k (e :: es)).get? (j + 1) = (withIds gen (k + 1) es).get? j := rfl
      rw [h1, ih (k + 1) j]
      have h2 : (k + 1) + j = k + (j + 1) := by omega
      rw [h2]
      rfl

theorem withIds_ids (gen : Nat → String) :
    ∀ (es : List NewPresetEntry) (k : Nat),
      (withIds gen k es).map (fun p => p.id)
        = (List.range es.length).map (fun i => gen (k + i)) := by
  intro es
  induction es with
  | nil => intro k; rfl
  | cons e es ih =>
    intro k
    have hlen : (e :: es).length = es.length + 1 := rfl
    rw [hlen, List.range_succ_eq_map]
    simp only [withIds, List.map_cons, List.map_map]
    rw [ih (k + 1)]
    congr 1
    apply List.map_congr_left
    intro i _
    show gen ((k + 1) + i) = gen (k + Nat.succ i)
    have h2 : (k + 1) + i = k + Nat.succ i := by omega
    rw [h2]

/-! ## Lemmas about `sortByFavorite` -/

/-- The strict order induced by `favCompare`, as a boolean. -/
def favLtB (a b : QuickPreset) : Bool := isFavT a && !(isFavT b)

theorem favCompare_lt_eq : (fun a b => decide (favCompare a b < 0)) = favLtB := by
  funext a b
  unfold favCompare favLtB
  cases ha : isFavT a <;> cases hb : isFavT b <;> simp

theorem sortByFavorite_eq_insertion (c : List QuickPreset) :
    sortByFavorite c = insertionSort favLtB c := by
  unfold sortByFavorite
  rw [show (fun a b => decide (favCompare a b < 0)) = favLtB from favCompare_lt_eq]

theorem insertSorted_fav (x : QuickPreset) (hx : isFavT x = true) :
    ∀ l, insertSorted favLtB x l = x :: l := by
  intro l
  cases l with
  | nil => rfl
  | cons b bs => simp [insertSorted, favLtB, hx]

theorem insertSorted_nonfav (x : QuickPreset) (hx : isFavT x = false) :
    ∀ ff nf, (∀ b ∈ ff, isFavT b = true) → (∀ b ∈ nf, isFavT b = false) →
      insertSorted favLtB x (ff ++ nf) = ff ++ x :: nf := by
  intro ff
  induction ff with
  | nil =>
    intro nf _ hnf
    cases nf with
    | nil => rfl
    | cons h t =>
      have : isFavT h = false := hnf h (List.mem_cons_self h t)
      simp [insertSorted, favLtB, this]
  | cons b ff ih =>
    intro nf hff hnf
    have hb : isFavT b = true := hff b (List.mem_cons_self b ff)
    have : insertSorted favLtB x (ff ++ nf) = ff ++ x :: nf :=
      ih nf (fun a ha => hff a (List.mem_cons_of_mem b ha)) hnf
    simp [insertSorted, favLtB, hb, hx, this]

/-- Stable-partition characterization of `sortByFavorite`: favorites first, in
input order, then the rest, in input order. -/
theorem sortByFavorite_partition (c : List QuickPreset) :
    sortByFavorite c
      = c.filter (fun p => isFavT p) ++ c.filter (fun p => !(isFavT p)) := by
  rw [sortByFavorite_eq_insertion]
  induction c with
  | nil => rfl
  | cons p l ih =>
    simp only [insertionSort]
    rw [ih]
    cases hp : isFavT p with
    | true =>
      rw [insertSorted_fav p hp]
      simp [List.filter_cons, hp]
    | false =>
      rw [insertSorted_nonfav p hp _ _
        (fun b hb => by simpa using List.of_mem_filter hb)
        (fun b hb => by simpa using List.of_mem_filter hb)]
      simp [List.filter_cons, hp]

/-! ## Claim theorems (non-codec claims) -/

/-- Concrete built-in record whose `models` array is not in code-unit order
and whose `name` matches the catalog entry for `coding`. -/
def c1preset : QuickPreset :=
  { id := "p1", sourceId := "coding", sourceType := SourceType.builtIn,
    name := "Coding Team", description := none,
    models := ["openai:GPT-4", "deepseek:DeepSeek Coder"],
    isModified := false, isFavorite := some false,
    usageCount := none, lastUsedAt := none }

/-- C1. The claim is the spec's purity contract and the code breaks it:
`updateQuickPreset([c1preset], "p1", {isFavorite: true})` reaches
`updated.models.sort()`, and since the patch has no `models` field the sorted
array aliases the input record's `models`, so after the call the input
collection's record holds `["deepseek:DeepSeek Coder", "openai:GPT-4"]`
instead of its original `["openai:GPT-4", "deepseek:DeepSeek Coder"]`. The
second component of `updateQuickPresetFull`'s result is the observable
post-call state of the input. -/
theorem c1_update_mutates_input :
    (updateQuickPresetFull [c1preset] "p1" { isFavorite := some true }).map
        (fun pr => pr.2)
      = Except.ok [{ c1preset with models := ["deepseek:DeepSeek Coder", "openai:GPT-4"] }] ∧
    [{ c1preset with models := ["deepseek:DeepSeek Coder", "openai:GPT-4"] }]
      ≠ [c1preset] := by
  constructor
  · rfl
  · decide

/-- Built-in record whose `sourceId` is not a key of `MODEL_PRESETS` and
whose cached `isModified` flag is `true`. -/
def c2preset : QuickPreset :=
  { id := "p1", sourceId := "ghost", sourceType := SourceType.builtIn,
    name := "N", description := none, models := ["m"],
    isModified := true, isFavorite := some false,
    usageCount := none, lastUsedAt := none }

/-- C2 counterexample. The claim says an orphaned built-in reference yields
`isModified = false` regardless of the previous value; at a `sourceId` that
misses both the catalog's own keys and `Object.prototype`,
`MODEL_PRESETS[sourceId]` is `undefined`, the `if (source)` guard skips the
recomputation entirely, and the spread-copied previous value `true`
survives the update. -/
theorem c2_counterexample :
    (updateQuickPreset [c2preset] "p1" { name := some "N2" }).map
      (fun rs => rs.map (fun p => p.isModified)) = Except.ok [true] := by
  rfl

theorem updateFullGo_ok (id : String) (u : UpdatePatch)
    (f : QuickPreset → QuickPreset × QuickPreset) :
    ∀ c : List QuickPreset, (∀ q ∈ c, updateOne id u q = Except.ok (f q)) →
      updateFullGo id u c
        = Except.ok (c.map (fun q => (f q).1), c.map (fun q => (f q).2)) := by
  intro c
  induction c with
  | nil => intro _; rfl
  | cons p ps ih =>
    intro h
    show updateFullGo id u (p :: ps) = _
    unfold updateFullGo
    rw [h p (by simp), ih (fun q hq => h q (by simp [hq]))]
    rfl

/-- A built-in record whose dangling `sourceId` collides with an
`Object.prototype` member name. -/
def protoPreset : QuickPreset :=
  { id := "p1", sourceId := "toString", sourceType := SourceType.builtIn,
    name := "N", description := none, models := ["m"],
    isModified := false, isFavorite := some false,
    usageCount := none, lastUsedAt := none }

/-- At `sourceId = "toString"`, `MODEL_PRESETS["toString"]` finds the
inherited, truthy `Object.prototype.toString`, so the recomputation is NOT
skipped: `updated.name !== source.name` compares against the function's
`.name` (`"toString"`) and sets `isModified := true`. -/
theorem update_protoKey_recomputes :
    (updateQuickPreset [protoPreset] "p1" { }).map
      (fun rs => rs.map (fun q => q.isModified)) = Except.ok [true] := by
  rfl

/-- If the record's (patched) name moreover equals the member's `.name`,
the right operand of `||` runs: `updated.models.sort()` first mutates the
aliased input array, then `[...source.models]` spreads `undefined` and
throws — the call returns no collection at all. -/
theorem update_protoKey_throws :
    updateQuickPreset [{ protoPreset with name := "toString", models := ["b", "a"] }]
        "p1" { }
      = Except.error [{ protoPreset with name := "toString", models := ["a", "b"] }] := by
  rfl

/-- C2 amended: when every record carrying the updated id is a built-in
whose `sourceId` resolves neither to an own key of `MODEL_PRESETS` nor to
an inherited `Object.prototype` member — a true orphan, on which
`MODEL_PRESETS[sourceId]` yields `undefined` — the call succeeds and
returns the patched record with its `isModified` flag carried over
unchanged from the input record (not reset to `false`). -/
theorem c2_orphan_keeps_isModified (c : List QuickPreset) (id : String)
    (u : UpdatePatch) (i : Nat) (p : QuickPreset)
    (hp : c.get? i = some p) (hid : p.id = id)
    (horph : ∀ q ∈ c, q.id = id → q.sourceType = SourceType.builtIn ∧
      catalogFind q.sourceId = none ∧ protoFind q.sourceId = none) :
    ∃ out, updateQuickPreset c id u = Except.ok out ∧
      out.get? i = some (applyPatch p u) ∧
      (applyPatch p u).isModified = p.isModified := by
  have hone : ∀ q ∈ c, updateOne id u q
      = Except.ok (if q.id = id then (applyPatch q u, q) else (q, q)) := by
    intro q hq
    by_cases hqid : q.id = id
    · obtain ⟨hbi, hcat, hpro⟩ := horph q hq hqid
      simp [updateOne, hqid, hbi, hcat, hpro]
    · simp [updateOne, hqid]
  have hgo := updateFullGo_ok id u
    (fun q => if q.id = id then (applyPatch q u, q) else (q, q)) c hone
  refine ⟨c.map (fun q => (if q.id = id then (applyPatch q u, q) else (q, q)).1),
    ?_, ?_, ?_⟩
  · unfold updateQuickPreset updateQuickPresetFull
    rw [hgo]
    rfl
  · rw [List.get?_map, hp]
    simp [hid]
  · simp [applyPatch]

/-- Witness for `c2_orphan_keeps_isModified` at the concrete orphaned
record. -/
theorem c2_orphan_keeps_isModified_witness :
    ([c2preset].get? 0 = some c2preset ∧ c2preset.id = "p1" ∧
      (∀ q ∈ [c2preset], q.id = "p1" → q.sourceType = SourceType.builtIn ∧
        catalogFind q.sourceId = none ∧ protoFind q.sourceId = none)) ∧
    ∃ out, updateQuickPreset [c2preset] "p1" { name := some "N2" } = Except.ok out ∧
      out.get? 0 = some (applyPatch c2preset { name := some "N2" }) ∧
      (applyPatch c2preset { name := some "N2" }).isModified = c2preset.isModified :=
  ⟨⟨by decide, by decide, by decide⟩,
    c2_orphan_keeps_isModified [c2preset] "p1" { name := some "N2" } 0 c2preset
      (by decide) (by decide) (by decide)⟩

/-- Record whose optional `isFavorite` field is absent. -/
def c3preset : QuickPreset :=
  { id := "p1", sourceId := "s", sourceType := SourceType.custom,
    name := "N", description := none, models := [],
    isModified := false, isFavorite := none,
    usageCount := none, lastUsedAt := none }

/-- C3 counterexample. With `isFavorite` absent, `!preset.isFavorite` is
`true`, and toggling back yields an explicit `false` — a field present with
value `false`, which is not the original absent field, so the double toggle
does not return the original collection. -/
theorem c3_counterexample :
    toggleFavorite (toggleFavorite [c3preset] "p1") "p1" ≠ [c3preset] := by
  decide

/-- C3 amended: the double toggle is the identity provided every record
carrying the toggled id has its `isFavorite` field present (defined); an
absent field instead comes back as an explicit `false`. -/
theorem c3_toggle_involution (c : List QuickPreset) (id : String)
    (h : ∀ p ∈ c, p.id = id → p.isFavorite.isSome) :
    toggleFavorite (toggleFavorite c id) id = c := by
  unfold toggleFavorite
  rw [List.map_map]
  apply list_map_eq_self
  intro p hp
  simp only [Function.comp_apply]
  by_cases hid : p.id = id
  · obtain ⟨b, hb⟩ := Option.isSome_iff_exists.mp (h p hp hid)
    cases p
    simp_all [isFavT]
  · cases p
    simp_all

/-- Witness for `c3_toggle_involution` on a record with `isFavorite`
present. -/
theorem c3_toggle_involution_witness :
    (∀ p ∈ [c1preset], p.id = "p1" → p.isFavorite.isSome) ∧
    toggleFavorite (toggleFavorite [c1preset] "p1") "p1" = [c1preset] :=
  ⟨by decide, c3_toggle_involution [c1preset] "p1" (by decide)⟩

/-- Every record built by `withIds` has `isModified = false` and an explicit
`isFavorite = false`. -/
theorem withIds_mem_flags (gen : Nat → String) :
    ∀ (es : List NewPresetEntry) (k : Nat) (p : QuickPreset),
      p ∈ withIds gen k es → p.isModified = false ∧ p.isFavorite = some false := by
  intro es
  induction es with
  | nil => intro k p hp; cases hp
  | cons e es ih =>
    intro k p hp
    rcases List.mem_cons.mp hp with h | h
    · subst h; exact ⟨rfl, rfl⟩
    · exact ih (k + 1) p h

/-- C7: `addQuickPresets` keeps the existing records as an unaltered prefix,
appends one fresh record per entry in input order (each `isModified = false`,
`isFavorite = false`), and — under the id-generator collaborator's contract
(injective stream avoiding existing ids) — the generated ids are pairwise
distinct and distinct from every existing id. -/
theorem c7_addQuickPresets_spec (gen : Nat → String) (c : List QuickPreset)
    (es : List NewPresetEntry)
    (hinj : ∀ i j, i < es.length → j < es.length → gen i = gen j → i = j)
    (hfresh : ∀ i, i < es.length → ∀ q ∈ c, gen i ≠ q.id) :
    (addQuickPresets gen c es).length = c.length + es.length ∧
    (addQuickPresets gen c es).take c.length = c ∧
    (∀ i, ((addQuickPresets gen c es).drop c.length).get? i
        = (es.get? i).map (fun e => freshQuickPreset (gen i) e)) ∧
    (∀ p ∈ (addQuickPresets gen c es).drop c.length,
        p.isModified = false ∧ p.isFavorite = some false) ∧
    (((addQuickPresets gen c es).drop c.length).map (fun p => p.id)).Nodup ∧
    (∀ p ∈ (addQuickPresets gen c es).drop c.length, ∀ q ∈ c, p.id ≠ q.id) := by
  have hdrop : (addQuickPresets gen c es).drop c.length = withIds gen 0 es := by
    unfold addQuickPresets
    exact List.drop_left c (withIds gen 0 es)
  have hids : (withIds gen 0 es).map (fun p => p.id)
      = (List.range es.length).map (fun i => gen i) := by
    rw [withIds_ids]
    apply List.map_congr_left
    intro i _
    rw [Nat.zero_add]
  refine ⟨?_, ?_, ?_, ?_, ?_, ?_⟩
  · unfold addQuickPresets
    rw [List.length_append, withIds_length]
  · unfold addQuickPresets
    exact List.take_left c (withIds gen 0 es)
  · intro i
    rw [hdrop, withIds_get]
    rw [Nat.zero_add]
  · intro p hp
    rw [hdrop] at hp
    exact withIds_mem_flags gen es 0 p hp
  · rw [hdrop, hids]
    apply List.Nodup.map_on
    · intro i hi j hj hij
      exact hinj i j (List.mem_range.mp hi) (List.mem_range.mp hj) hij
    · exact List.nodup_range _
  · intro p hp q hq
    rw [hdrop] at hp
    have hmem : p.id ∈ (withIds gen 0 es).map (fun r => r.id) := List.mem_map_of_mem _ hp
    rw [hids] at hmem
    obtain ⟨i, hi, hgi⟩ := List.mem_map.mp hmem
    rw [← hgi]
    exact hfresh i (List.mem_range.mp hi) q hq

/-- A concrete host id stream for witnesses. -/
def genW : Nat → String := fun n => "quick-" ++ toString n

/-- A concrete new entry for witnesses. -/
def e7entry : NewPresetEntry :=
  { sourceId := "s1", sourceType := SourceType.custom, name := "A",
    description := none, models := [] }

/-- Witness for `c7_addQuickPresets_spec` with a one-element collection and
one new entry on a concrete id stream. -/
theorem c7_addQuickPresets_spec_witness :
    ((∀ i j, i < [e7entry].length → j < [e7entry].length → genW i = genW j → i = j) ∧
      (∀ i, i < [e7entry].length → ∀ q ∈ [c1preset], genW i ≠ q.id)) ∧
    ((addQuickPresets genW [c1preset] [e7entry]).length
        = [c1preset].length + [e7entry].length ∧
      (addQuickPresets genW [c1preset] [e7entry]).take [c1preset].length = [c1preset]) := by
  have hinj : ∀ i j, i < [e7entry].length → j < [e7entry].length → genW i = genW j → i = j := by
    intro i j hi hj _
    simp only [List.length_cons, List.length_nil] at hi hj
    omega
  have hfresh : ∀ i, i < [e7entry].length → ∀ q ∈ [c1preset], genW i ≠ q.id := by
    intro i hi q hq
    simp only [List.length_cons, List.length_nil] at hi
    have hi0 : i = 0 := by omega
    subst hi0
    have hq1 : q = c1preset := by simpa using hq
    subst hq1
    decide
  have h := c7_addQuickPresets_spec genW [c1preset] [e7entry] hinj hfresh
  exact ⟨⟨hinj, hfresh⟩, h.1, h.2.1⟩

/-- C8: an id matching no record makes `updateQuickPreset`,
`removeQuickPreset` and `toggleFavorite` return the collection unchanged
(element for element); all three are total functions, so none signals an
error. -/
theorem c8_unknown_id_noop (c : List QuickPreset) (id : String) (u : UpdatePatch)
    (h : ∀ p ∈ c, p.id ≠ id) :
    updateQuickPreset c id u = Except.ok c ∧ removeQuickPreset c id = c ∧
    toggleFavorite c id = c := by
  refine ⟨?_, ?_, ?_⟩
  · have hone : ∀ q ∈ c, updateOne id u q = Except.ok ((fun r => (r, r)) q) := by
      intro q hq
      simp [updateOne, h q hq]
    have hgo := updateFullGo_ok id u (fun r => (r, r)) c hone
    unfold updateQuickPreset updateQuickPresetFull
    rw [hgo]
    show Except.ok (c.map (fun r => r)) = Except.ok c
    rw [list_map_eq_self _ c (fun a _ => rfl)]
  · unfold removeQuickPreset
    rw [List.filter_eq_self]
    intro p hp
    simpa using h p hp
  · unfold toggleFavorite
    apply list_map_eq_self
    intro p hp
    simp [h p hp]

/-- Witness for `c8_unknown_id_noop` at an id absent from a concrete
collection. -/
theorem c8_unknown_id_noop_witness :
    (∀ p ∈ [c1preset, c3preset], p.id ≠ "zz") ∧
    (updateQuickPreset [c1preset, c3preset] "zz" { name := some "x" }
        = Except.ok [c1preset, c3preset] ∧
      removeQuickPreset [c1preset, c3preset] "zz" = [c1preset, c3preset] ∧
      toggleFavorite [c1preset, c3preset] "zz" = [c1preset, c3preset]) :=
  ⟨by decide, c8_unknown_id_noop [c1preset, c3preset] "zz" { name := some "x" } (by decide)⟩

/-- C9: `sortByFavorite` is the stable partition — favorites first in input
order, then non-favorites in input order (this single equation pins both the
precedence and the within-group order, and the input list is untouched since
the function builds a new list) — and it is idempotent. -/
theorem c9_sortByFavorite_spec (c : List QuickPreset) :
    sortByFavorite c
        = c.filter (fun p => isFavT p) ++ c.filter (fun p => !(isFavT p)) ∧
    sortByFavorite (sortByFavorite c) = sortByFavorite c := by
  have hA : (c.filter (fun p => isFavT p)).filter (fun p => isFavT p)
      = c.filter (fun p => isFavT p) :=
    List.filter_eq_self.mpr (fun a ha => List.of_mem_filter ha)
  have hB : (c.filter (fun p => !(isFavT p))).filter (fun p => isFavT p) = [] := by
    rw [List.filter_eq_nil]
    intro a ha
    have h := List.of_mem_filter ha
    simp only [Bool.not_eq_true'] at h
    simp [h]
  have hC : (c.filter (fun p => isFavT p)).filter (fun p => !(isFavT p)) = [] := by
    rw [List.filter_eq_nil]
    intro a ha
    have h := List.of_mem_filter ha
    simp [h]
  have hD : (c.filter (fun p => !(isFavT p))).filter (fun p => !(isFavT p))
      = c.filter (fun p => !(isFavT p)) := by
    rw [List.filter_eq_self]
    intro a ha
    have h := List.of_mem_filter ha
    exact h
  constructor
  · exact sortByFavorite_partition c
  · rw [sortByFavorite_partition c, sortByFavorite_partition, List.filter_append,
      List.filter_append, hA, hB, hC, hD, List.append_nil, List.nil_append]

/-- C10: moving from an out-of-range source index does not clamp or no-op:
the result is one element longer and carries the JavaScript value
`undefined` (modelled `none`) at the destination index, breaking the
well-formed-collection invariant. -/
theorem c10_reorder_out_of_range (c : List QuickPreset) (s e : Nat)
    (hs : c.length ≤ s) (he : e ≤ c.length) :
    (reorderQuickPresets c s e).length = c.length + 1 ∧
    (reorderQuickPresets c s e).get? e = some none := by
  unfold reorderQuickPresets
  have hlen : (c.map some).length = c.length := List.length_map c some
  have hnotlt : ¬ s < (c.map some).length := by rw [hlen]; omega
  have hremoved : (c.map some).getD s none = none := by
    apply List.getD_eq_default
    rw [hlen]; exact hs
  simp only [hnotlt, if_false, hremoved]
  have hmin : min e (c.map some).length = e := by
    rw [hlen]; exact Nat.min_eq_left he
  rw [hmin]
  constructor
  · rw [jsInsertAt_length, hlen]
  · apply jsInsertAt_get_self
    rw [hlen]; exact he

/-- Witness for `c10_reorder_out_of_range` with a singleton collection,
source index 5, destination index 1. -/
theorem c10_reorder_out_of_range_witness :
    ([c1preset].length ≤ 5 ∧ 1 ≤ [c1preset].length) ∧
    ((reorderQuickPresets [c1preset] 5 1).length = [c1preset].length + 1 ∧
      (reorderQuickPresets [c1preset] 5 1).get? 1 = some none) :=
  ⟨⟨by decide, by decide⟩, c10_reorder_out_of_range [c1preset] 5 1 (by decide) (by decide)⟩

/-! ## JSON values and a model of `JSON.parse`

JavaScript values produced by `JSON.parse`. Numbers keep their source
lexeme; the module under verification only ever compares and produces the
integer literal `1`, for which the lexeme is the number's canonical
rendering. -/

inductive JValue where
  | jnull
  | jbool (b : Bool)
  | jnum (lexeme : List Char)
  | jstr (s : String)
  | jarr (elems : List JValue)
  | jobj (fields : List (String × JValue))

/-- JSON insignificant whitespace. -/
def isWsC (c : Char) : Bool :=
  c = ' ' || c = Char.ofNat 9 || c = Char.ofNat 10 || c = Char.ofNat 13

/-- Skip insignificant whitespace. -/
def skipWs : List Char → List Char
  | [] => []
  | c :: cs => if isWsC c then skipWs cs else c :: cs

/-- Value of one hex digit. -/
def hexVal (c : Char) : Option Nat :=
  if '0' ≤ c ∧ c ≤ '9' then some (c.toNat - 48)
  else if 'a' ≤ c ∧ c ≤ 'f' then some (c.toNat - 87)
  else if 'A' ≤ c ∧ c ≤ 'F' then some (c.toNat - 55)
  else none

/-- The character denoted by a one-character string escape (other than
`\uXXXX`). -/
def simpleEscape (e : Char) : Option Char :=
  if e = '"' then some '"'
  else if e = '\\' then some '\\'
  else if e = '/' then some '/'
  else if e = 'b' then some (Char.ofNat 8)
  else if e = 'f' then some (Char.ofNat 12)
  else if e = 'n' then some (Char.ofNat 10)
  else if e = 'r' then some (Char.ofNat 13)
  else if e = 't' then some (Char.ofNat 9)
  else none

/-- Body of a JSON string literal, after the opening quote; returns the
decoded characters and the input after the closing quote. A surrogate pair
written as two `\u` escapes decodes to one character; a lone surrogate is
rejected (JavaScript would keep it, but a Lean `Char` cannot represent it —
no string this module produces contains one). -/
def parseStringBody : Nat → List Char → Option (List Char × List Char)
  | 0, _ => none
  | _, [] => none
  | fuel + 1, c :: rest =>
    if c = '"' then some ([], rest)
    else if c = '\\' then
      match rest with
      | 'u' :: h1 :: h2 :: h3 :: h4 :: rest2 =>
        match hexVal h1, hexVal h2, hexVal h3, hexVal h4 with
        | some a, some b, some d, some e =>
          let code := a * 4096 + b * 256 + d * 16 + e
          if code < 0xD800 ∨ 0xE000 ≤ code then
            (parseStringBody fuel rest2).map (fun pr => (Char.ofNat code :: pr.1, pr.2))
          else if code < 0xDC00 then
            match rest2 with
            | '\\' :: 'u' :: g1 :: g2 :: g3 :: g4 :: rest3 =>
              match hexVal g1, hexVal g2, hexVal g3, hexVal g4 with
              | some a2, some b2, some d2, some e2 =>
                let lo := a2 * 4096 + b2 * 256 + d2 * 16 + e2
                if 0xDC00 ≤ lo ∧ lo < 0xE000 then
                  let cp := 0x10000 + (code - 0xD800) * 0x400 + (lo - 0xDC00)
                  (parseStringBody fuel rest3).map (fun pr => (Char.ofNat cp :: pr.1, pr.2))
                else none
              | _, _, _, _ => none
            | _ => none
          else none
        | _, _, _, _ => none
      | e :: rest2 =>
        match simpleEscape e with
        | some ch => (parseStringBody fuel rest2).map (fun pr => (ch :: pr.1, pr.2))
        | none => none
      | [] => none
    else if c.toNat < 0x20 then none
    else (parseStringBody fuel rest).map (fun pr => (c :: pr.1, pr.2))

/-- Longest digit run. -/
def takeDigits : List Char → List Char × List Char
  | [] => ([], [])
  | c :: cs =>
    if c.isDigit then
      let (ds, rest) := takeDigits cs
      (c :: ds, rest)
    else ([], c :: cs)

/-- Integer part of a JSON number: `0` or a nonzero digit followed by
digits. -/
def lexInt : List Char → Option (List Char × List Char)
  | [] => none
  | c :: cs =>
    if c = '0' then some (['0'], cs)
    else if c.isDigit then
      let (ds, rest) := takeDigits cs
      some (c :: ds, rest)
    else none

/-- Optional fraction part. -/
def lexFrac (l : List Char) : Option (List Char × List Char) :=
  match l with
  | '.' :: cs =>
    match takeDigits cs with
    | ([], _) => none
    | (ds, rest) => some ('.' :: ds, rest)
  | _ => some ([], l)

/-- Optional exponent part. -/
def lexExp (l : List Char) : Option (List Char × List Char) :=
  match l with
  | c :: cs =>
    if c = 'e' ∨ c = 'E' then
      match cs with
      | s :: cs2 =>
        if s = '+' ∨ s = '-' then
          match takeDigits cs2 with
          | ([], _) => none
          | (ds, rest) => some (c :: s :: ds, rest)
        else
          match takeDigits cs with
          | ([], _) => none
          | (ds, rest) => some (c :: ds, rest)
      | [] => none
    else some ([], l)
  | [] => some ([], [])

/-- Maximal JSON number lexeme at the head of the input. -/
def lexNumber (l : List Char) : Option (List Char × List Char) :=
  let signed : List Char × List Char :=
    match l with
    | '-' :: cs => (['-'], cs)
    | _ => ([], l)
  match lexInt signed.2 with
  | none => none
  | some (ip, l2) =>
    match lexFrac l2 with
    | none => none
    | some (fp, l3) =>
      match lexExp l3 with
      | none => none
      | some (ep, l4) => some (signed.1 ++ ip ++ fp ++ ep, l4)

mutual

/-- Fueled recursive-descent JSON value parser (the fuel only bounds
recursion; `jsonParse` passes enough for any input since every step consumes
input). -/
def parseValue : Nat → List Char → Option (JValue × List Char)
  | 0, _ => none
  | fuel + 1, input =>
    match skipWs input with
    | 'n' :: 'u' :: 'l' :: 'l' :: rest => some (JValue.jnull, rest)
    | 't' :: 'r' :: 'u' :: 'e' :: rest => some (JValue.jbool true, rest)
    | 'f' :: 'a' :: 'l' :: 's' :: 'e' :: rest => some (JValue.jbool false, rest)
    | '"' :: rest =>
      (parseStringBody (fuel + 1) rest).map (fun pr => (JValue.jstr (String.mk pr.1), pr.2))
    | '[' :: rest =>
      match skipWs rest with
      | ']' :: rest2 => some (JValue.jarr [], rest2)
      | rest2 => (parseElems fuel rest2).map (fun pr => (JValue.jarr pr.1, pr.2))
    | '{' :: rest =>
      match skipWs rest with
      | '}' :: rest2 => some (JValue.jobj [], rest2)
      | rest2 => (parseMembers fuel rest2).map (fun pr => (JValue.jobj pr.1, pr.2))
    | rest => (lexNumber rest).map (fun pr => (JValue.jnum pr.1, pr.2))

/-- Elements of a non-empty array, up to and including the closing
bracket. -/
def parseElems : Nat → List Char → Option (List JValue × List Char)
  | 0, _ => none
  | fuel + 1, input =>
    match parseValue fuel input with
    | none => none
    | some (v, rest) =>
      match skipWs rest with
      | ',' :: rest2 =>
        match parseElems fuel rest2 with
        | none => none
        | some (vs, rest3) => some (v :: vs, rest3)
      | ']' :: rest2 => some ([v], rest2)
      | _ => none

/-- Members of a non-empty object, up to and including the closing
brace. -/
def parseMembers : Nat → List Char → Option (List (String × JValue) × List Char)
  | 0, _ => none
  | fuel + 1, input =>
    match skipWs input with
    | '"' :: rest =>
      match parseStringBody (fuel + 1) rest with
      | none => none
      | some (key, rest1) =>
        match skipWs rest1 with
        | ':' :: rest2 =>
          match parseValue fuel rest2 with
          | none => none
          | some (v, rest3) =>
            match skipWs rest3 with
            | ',' :: rest4 =>
              match parseMembers fuel rest4 with
              | none => none
              | some (ms, rest5) => some ((String.mk key, v) :: ms, rest5)
            | '}' :: rest4 => some ([(String.mk key, v)], rest4)
            | _ => none
        | _ => none
    | _ => none

end

/-- `JSON.parse`: a complete value with only whitespace around it. The fuel
`2 * length + 4` strictly dominates the recursion (each nesting step and
each parsed token consumes at least one character). -/
def jsonParse (s : String) : Option JValue :=
  match parseValue (2 * s.length + 4) s.data with
  | none => none
  | some (v, rest) => if skipWs rest = [] then some v else none

/-! ## JavaScript value semantics used by the module -/

/-- A JSON number is falsy exactly when its mantissa digits are all zero
(`0`, `-0`, `0.00`, `0e9`, …). -/
def numLexIsZero (lex : List Char) : Bool :=
  ((lex.takeWhile (fun c => c != 'e' && c != 'E')).filter (fun c => c.isDigit)).all
    (fun c => c == '0')

/-- ECMAScript `ToBoolean` on a parsed JSON value. -/
def jsTruthyV : JValue → Bool
  | JValue.jnull => false
  | JValue.jbool b => b
  | JValue.jnum lex => !(numLexIsZero lex)
  | JValue.jstr s => s != ""
  | JValue.jarr _ => true
  | JValue.jobj _ => true

/-- Truthiness of a possibly-`undefined` value. -/
def jsTruthy : Option JValue → Bool
  | none => false
  | some v => jsTruthyV v

/-- `a || b` on a possibly-`undefined` left operand. -/
def jsOr (a : Option JValue) (b : JValue) : JValue :=
  match a with
  | some v => if jsTruthyV v then v else b
  | none => b

/-- Own-property lookup on a parsed object; `JSON.parse` keeps the last
occurrence of a duplicated key. -/
def lookupField (fields : List (String × JValue)) (k : String) : Option JValue :=
  (fields.reverse.find? (fun kv => kv.1 == k)).map (fun kv => kv.2)

/-- Property access `v[k]`: throws (`.error`) on `null`, yields the field on
an object, and `undefined` (`none`) otherwise — faithful for the six data
keys this module reads, none of which collides with a built-in property of
strings or arrays. -/
def jsGetProp : JValue → String → Except Unit (Option JValue)
  | JValue.jnull, _ => Except.error ()
  | JValue.jobj fields, k => Except.ok (lookupField fields k)
  | _, _ => Except.ok none

/-- `Array.isArray`. -/
def isArrJ : Option JValue → Bool
  | some (JValue.jarr _) => true
  | _ => false

/-! ## base64 (`btoa` / `atob`) -/

/-- Standard base64 alphabet. -/
def b64Char (n : Nat) : Char :=
  if n < 26 then Char.ofNat (65 + n)
  else if n < 52 then Char.ofNat (97 + (n - 26))
  else if n < 62 then Char.ofNat (48 + (n - 52))
  else if n = 62 then '+'
  else '/'

/-- base64-encode a byte list (values &lt; 256), with `=` padding. -/
def b64Encode : List Nat → List Char
  | [] => []
  | [a] => [b64Char (a / 4), b64Char ((a % 4) * 16), '=', '=']
  | [a, b] => [b64Char (a / 4), b64Char ((a % 4) * 16 + b / 16), b64Char ((b % 16) * 4), '=']
  | a :: b :: c :: rest =>
    b64Char (a / 4) :: b64Char ((a % 4) * 16 + b / 16) :: b64Char ((b % 16) * 4 + c / 64)
      :: b64Char (c % 64) :: b64Encode rest

/-- Value of a base64 alphabet character. -/
def b64CharVal (c : Char) : Option Nat :=
  if 'A' ≤ c ∧ c ≤ 'Z' then some (c.toNat - 65)
  else if 'a' ≤ c ∧ c ≤ 'z' then some (c.toNat - 97 + 26)
  else if '0' ≤ c ∧ c ≤ '9' then some (c.toNat - 48 + 52)
  else if c = '+' then some 62
  else if c = '/' then some 63
  else none

/-- base64-decode a canonically padded token (the shape `btoa` emits; the
whitespace and missing-padding tolerance of forgiving-base64 decode is not
exercised by any claim). -/
def b64Decode : List Char → Option (List Nat)
  | [] => some []
  | c1 :: c2 :: c3 :: c4 :: rest =>
    match b64CharVal c1, b64CharVal c2 with
    | some a, some b =>
      if c3 = '=' ∧ c4 = '=' ∧ rest = [] then some [a * 4 + b / 16]
      else
        match b64CharVal c3 with
        | some d =>
          if c4 = '=' ∧ rest = [] then some [a * 4 + b / 16, (b % 16) * 16 + d / 4]
          else
            match b64CharVal c4 with
            | some e =>
              (b64Decode rest).map
                (fun bs => (a * 4 + b / 16) :: ((b % 16) * 16 + d / 4) :: ((d % 4) * 64 + e) :: bs)
            | none => none
        | none => none
    | _, _ => none
  | _ => none

/-- `btoa`: throws (`none`) when any UTF-16 code unit exceeds `0xFF`
(a character above U+00FF), else base64 of the code-unit bytes. -/
def btoa (s : String) : Option String :=
  if s.data.all (fun c => c.toNat ≤ 0xFF) then
    some (String.mk (b64Encode (s.data.map Char.toNat)))
  else none

/-- `atob`: bytes of a base64 token, as a string of U+0000–U+00FF
characters. -/
def atob (s : String) : Option String :=
  (b64Decode s.data).map (fun bs => String.mk (bs.map Char.ofNat))

/-! ## `JSON.stringify(…, null, 2)` for the export document shape -/

/-- Newline plus the two-space indent of level `n`. -/
def nlInd (n : Nat) : List Char := Char.ofNat 10 :: List.replicate (2 * n) ' '

/-- Items of a non-empty indented array/object body, each on its own line at
level `n`, separated by commas. -/
def joinItemsI (n : Nat) : List (List Char) → List Char
  | [] => []
  | [x] => nlInd n ++ x
  | x :: y :: rest => nlInd n ++ x ++ ',' :: joinItemsI n (y :: rest)

/-- Indent-2 array layout at nesting level `n` (`[]` when empty). -/
def prettyArr (n : Nat) (items : List (List Char)) : List Char :=
  match items with
  | [] => ['[', ']']
  | _ => '[' :: (joinItemsI (n + 1) items ++ nlInd n) ++ [']']

/-- One `"key": value` member. -/
def prettyObjMember (k : String) (v : List Char) : List Char :=
  printStr k ++ ':' :: ' ' :: v

/-- Indent-2 object layout at nesting level `n`. -/
def prettyObj (n : Nat) (members : List (List Char)) : List Char :=
  match members with
  | [] => ['{', '}']
  | _ => '{' :: (joinItemsI (n + 1) members ++ nlInd n) ++ ['}']

/-- Serialized form of the `sourceType` union values. -/
def sourceTypeStr : SourceType → String
  | SourceType.builtIn => "built-in"
  | SourceType.custom => "custom"

/-- One entry of the export document: keys in the literal's order, with
`undefined`-valued keys (`description`, `isFavorite` when absent) omitted,
exactly as `JSON.stringify` omits them. -/
def printExportEntry (p : QuickPreset) : List Char :=
  prettyObj 2 (
    [prettyObjMember "name" (printStr p.name)]
    ++ (match p.description with
        | some d => [prettyObjMember "description" (printStr d)]
        | none => [])
    ++ [prettyObjMember "models" (prettyArr 3 (p.models.map printStr))]
    ++ [prettyObjMember "sourceType" (printStr (sourceTypeStr p.sourceType))]
    ++ [prettyObjMember "sourceId" (printStr p.sourceId)]
    ++ (match p.isFavorite with
        | some b => [prettyObjMember "isFavorite" (if b then "true".data else "false".data)]
        | none => []))

/-- `exportPresets` — the `{version, exportedAt, presets}` document,
pretty-printed with indent 2; `exportedAt` (the host clock's ISO rendering)
is an explicit input. -/
def exportPresets (nowIso : String) (presets : List QuickPreset) : String :=
  String.mk (prettyObj 0 (
    [prettyObjMember "version" ['1'],
     prettyObjMember "exportedAt" (printStr nowIso),
     prettyObjMember "presets" (prettyArr 1 (presets.map printExportEntry))]))

/-! ## `importPresets` -/

/-- The object `importPresets` builds for one parsed entry. Fields hold the
JavaScript values the untyped code actually produces (`name` and
`description` may be `undefined`, and nothing coerces a weird `sourceType`
to the declared union type). -/
structure ImportedPreset where
  id : String
  sourceId : JValue
  sourceType : JValue
  name : Option JValue
  description : Option JValue
  models : JValue
  isModified : Bool
  isFavorite : JValue

/-- Builds one imported record from a parsed entry `p`; property access on a
`null` entry throws. -/
def importEntry (gen : Nat → String) (now : Nat) (k : Nat) (p : JValue) :
    Except Unit ImportedPreset :=
  match jsGetProp p "sourceId" with
  | Except.error e => Except.error e
  | Except.ok sid =>
    match jsGetProp p "sourceType" with
    | Except.error e => Except.error e
    | Except.ok st =>
      match jsGetProp p "name" with
      | Except.error e => Except.error e
      | Except.ok nm =>
        match jsGetProp p "description" with
        | Except.error e => Except.error e
        | Except.ok ds =>
          match jsGetProp p "models" with
          | Except.error e => Except.error e
          | Except.ok md =>
            match jsGetProp p "isFavorite" with
            | Except.error e => Except.error e
            | Except.ok fv =>
              Except.ok
                { id := gen k
                  sourceId := jsOr sid (JValue.jstr ("imported-" ++ toString now))
                  sourceType := jsOr st (JValue.jstr "custom")
                  name := nm
                  description := ds
                  models := jsOr md (JValue.jarr [])
                  isModified := false
                  isFavorite := jsOr fv (JValue.jbool false) }

/-- `data.presets.map(p => …)` — the first throwing entry aborts the map. -/
def importList (gen : Nat → String) (now : Nat) :
    Nat → List JValue → Except Unit (List ImportedPreset)
  | _, [] => Except.ok []
  | k, p :: ps =>
    match importEntry gen now k p with
    | Except.error e => Except.error e
    | Except.ok r =>
      match importList gen now (k + 1) ps with
      | Except.error e => Except.error e
      | Except.ok rest => Except.ok (r :: rest)

/-- `importPresets`; `gen` is the host id stream and `now` the host clock
value used for the synthesized `sourceId` placeholder; any exception inside
`try` yields `null` (`none`). -/
def importPresets (gen : Nat → String) (now : Nat) (jsonString : String) :
    Option (List ImportedPreset) :=
  match jsonParse jsonString with
  | none => none
  | some data =>
    match jsGetProp data "presets" with
    | Except.error _ => none
    | Except.ok presetsV =>
      if !(jsTruthy presetsV) || !(isArrJ presetsV) then none
      else
        match presetsV with
        | some (JValue.jarr elems) =>
          match importList gen now 0 elems with
          | Except.error _ => none
          | Except.ok rs => some rs
        | _ => none

/-! ## Share-link codec -/

/-- `JSON.stringify({name, description, models})` (compact): key order of
the object literal, `undefined` `description` omitted. -/
def printShare (name : String) (desc : Option String) (models : List String) : List Char :=
  ('{' :: printStr "name") ++ (':' :: printStr name)
    ++ (match desc with
        | some d => (',' :: printStr "description") ++ (':' :: printStr d)
        | none => [])
    ++ ((',' :: printStr "models") ++ (':' :: printStrArrC models)) ++ ['}']

/-- `generateShareableUrl`; the page origin+path (`window.location`) is an
explicit input, and `none` models the `InvalidCharacterError` `btoa` throws
on non-Latin-1 data. -/
def generateShareableUrl (baseUrl : String) (preset : QuickPreset) : Option String :=
  (btoa (String.mk (printShare preset.name preset.description preset.models))).map
    (fun encoded => baseUrl ++ "#preset=" ++ encoded)

/-- What `parsePresetFromUrl` returns on success, at JavaScript value level
(`description` may be `undefined`). -/
structure SharedPreset where
  name : JValue
  description : Option JValue
  models : JValue

/-- The `"#preset="` marker. -/
def presetMarker : List Char := ['#', 'p', 'r', 'e', 's', 'e', 't', '=']

/-- `url.indexOf('#preset=')` plus `url.substring(hashIndex + 8)`: the
suffix after the first occurrence of the marker, or `none`. -/
def splitAtMarker : List Char → Option (List Char)
  | [] => none
  | c :: cs =>
    if presetMarker.isPrefixOf (c :: cs) then some ((c :: cs).drop presetMarker.length)
    else splitAtMarker cs

/-- `parsePresetFromUrl`: locate the marker, `atob`, `JSON.parse`, validate
`name` truthy and `models` an array; every throw is caught to `null`. -/
def parsePresetFromUrl (url : String) : Option SharedPreset :=
  match splitAtMarker url.data with
  | none => none
  | some encoded =>
    match atob (String.mk encoded) with
    | none => none
    | some decoded =>
      match jsonParse decoded with
      | none => none
      | some data =>
        match jsGetProp data "name" with
        | Except.error _ => none
        | Except.ok nm =>
          match jsGetProp data "models" with
          | Except.error _ => none
          | Except.ok md =>
            if !(jsTruthy nm) || !(isArrJ md) then none
            else
              match nm, md, jsGetProp data "description" with
              | some nv, some mv, Except.ok ds =>
                some { name := nv, description := ds, models := mv }
              | _, _, _ => none

/-! ## Lemmas about `importPresets` -/

theorem jsGetProp_ok (p : JValue) (hp : p ≠ JValue.jnull) (k : String) :
    ∃ o, jsGetProp p k = Except.ok o := by
  cases p with
  | jnull => exact absurd rfl hp
  | jbool b => exact ⟨none, rfl⟩
  | jnum l => exact ⟨none, rfl⟩
  | jstr s => exact ⟨none, rfl⟩
  | jarr es => exact ⟨none, rfl⟩
  | jobj fs => exact ⟨lookupField fs k, rfl⟩

theorem importEntry_null (gen : Nat → String) (now k : Nat) :
    importEntry gen now k JValue.jnull = Except.error () := rfl

theorem importEntry_eq (gen : Nat → String) (now k : Nat) (p : JValue)
    (sid st nm ds md fv : Option JValue)
    (h1 : jsGetProp p "sourceId" = Except.ok sid)
    (h2 : jsGetProp p "sourceType" = Except.ok st)
    (h3 : jsGetProp p "name" = Except.ok nm)
    (h4 : jsGetProp p "description" = Except.ok ds)
    (h5 : jsGetProp p "models" = Except.ok md)
    (h6 : jsGetProp p "isFavorite" = Except.ok fv) :
    importEntry gen now k p = Except.ok
      { id := gen k
        sourceId := jsOr sid (JValue.jstr ("imported-" ++ toString now))
        sourceType := jsOr st (JValue.jstr "custom")
        name := nm
        description := ds
        models := jsOr md (JValue.jarr [])
        isModified := false
        isFavorite := jsOr fv (JValue.jbool false) } := by
  unfold importEntry
  rw [h1, h2, h3, h4, h5, h6]

theorem importEntry_ok (gen : Nat → String) (now k : Nat) (p : JValue)
    (hp : p ≠ JValue.jnull) : ∃ r, importEntry gen now k p = Except.ok r := by
  obtain ⟨o1, e1⟩ := jsGetProp_ok p hp "sourceId"
  obtain ⟨o2, e2⟩ := jsGetProp_ok p hp "sourceType"
  obtain ⟨o3, e3⟩ := jsGetProp_ok p hp "name"
  obtain ⟨o4, e4⟩ := jsGetProp_ok p hp "description"
  obtain ⟨o5, e5⟩ := jsGetProp_ok p hp "models"
  obtain ⟨o6, e6⟩ := jsGetProp_ok p hp "isFavorite"
  exact ⟨_, importEntry_eq gen now k p o1 o2 o3 o4 o5 o6 e1 e2 e3 e4 e5 e6⟩

theorem importList_null_mem (gen : Nat → String) (now : Nat) :
    ∀ (es : List JValue) (k : Nat), JValue.jnull ∈ es →
      importList gen now k es = Except.error () := by
  intro es
  induction es with
  | nil => intro k h; cases h
  | cons p ps ih =>
    intro k h
    rcases List.mem_cons.mp h with h1 | h1
    · subst h1
      unfold importList
      rw [importEntry_null]
    · unfold importList
      cases he : importEntry gen now k p with
      | error e => cases e; rfl
      | ok r => rw [ih (k + 1) h1]

theorem importList_ok (gen : Nat → String) (now : Nat) :
    ∀ (es : List JValue) (k : Nat), JValue.jnull ∉ es →
      ∃ rs, importList gen now k es = Except.ok rs ∧ rs.length = es.length ∧
        ∀ i p, es.get? i = some p →
          ∃ r, rs.get? i = some r ∧ importEntry gen now (k + i) p = Except.ok r := by
  intro es
  induction es with
  | nil =>
    intro k _
    refine ⟨[], rfl, rfl, ?_⟩
    intro i p h
    cases i <;> cases h
  | cons p ps ih =>
    intro k hnn
    have hp : p ≠ JValue.jnull := by
      intro h; exact hnn (h ▸ List.mem_cons_self p ps)
    have hps : JValue.jnull ∉ ps := fun h => hnn (List.mem_cons_of_mem p h)
    obtain ⟨r, hr⟩ := importEntry_ok gen now k p hp
    obtain ⟨rs, hrs, hlen, hfields⟩ := ih (k + 1) hps
    refine ⟨r :: rs, ?_, by simpa using hlen, ?_⟩
    · unfold importList
      rw [hr, hrs]
    · intro i q hq
      cases i with
      | zero =>
        refine ⟨r, rfl, ?_⟩
        have hpq : p = q := by simpa using hq
        rw [← hpq]
        exact hr
      | succ j =>
        obtain ⟨r', hr1, hr2⟩ := hfields j q (by simpa using hq)
        refine ⟨r', by simpa using hr1, ?_⟩
        have harith : (k + 1) + j = k + (j + 1) := by omega
        rw [← harith]
        exact hr2

/-- C6 counterexample. Two concrete inputs refute the claim as stated:
a present but invalid `sourceType` (`"weird"`, truthy) is passed through
rather than defaulted to `"custom"`, and a `null` entry makes the
whole import return `null` even though the `presets` field *is* an array (the
entry mapper throws reading `null.sourceId` and the `catch` returns
`null`). -/
theorem c6_counterexample :
    (importPresets genW 0
        "\x7b\"presets\":[\x7b\"name\":\"x\",\"sourceType\":\"weird\"\x7d]\x7d").map
        (fun rs => rs.map (fun r => r.sourceType))
      = some [JValue.jstr "weird"] ∧
    JValue.jstr "weird" ≠ JValue.jstr "custom" ∧
    importPresets genW 0 "\x7b\"presets\":[null]\x7d" = none := by
  refine ⟨rfl, ?_, rfl⟩
  intro h
  simp at h

/-- C6 amended: `importPresets` returns `null` exactly when the string fails
to parse as JSON, or the parsed value's `presets` field is missing / not an
array (including the throw-on-`null`-receiver case), **or some entry of the
array is `null`**; it never throws (it is a total function). On success each
record gets the next generated id and `isModified = false`; `sourceId`,
`sourceType`, `models` and `isFavorite` are defaulted when the entry's field
is absent, but a present truthy `sourceType` — valid or not — is passed
through unchanged. -/
theorem c6_importPresets_spec (gen : Nat → String) (now : Nat) (s : String) :
    (importPresets gen now s = none ↔
      (match jsonParse s with
       | none => True
       | some data =>
         match jsGetProp data "presets" with
         | Except.error _ => True
         | Except.ok pv =>
           (∀ es, pv ≠ some (JValue.jarr es)) ∨
             (∃ es, pv = some (JValue.jarr es) ∧ JValue.jnull ∈ es))) ∧
    (∀ data es, jsonParse s = some data →
      jsGetProp data "presets" = Except.ok (some (JValue.jarr es)) →
      JValue.jnull ∉ es →
      ∃ rs, importPresets gen now s = some rs ∧ rs.length = es.length ∧
        ∀ i p, es.get? i = some p →
          ∃ r, rs.get? i = some r ∧
            r.id = gen i ∧ r.isModified = false ∧
            (jsGetProp p "sourceId" = Except.ok none →
              r.sourceId = JValue.jstr ("imported-" ++ toString now)) ∧
            (jsGetProp p "sourceType" = Except.ok none →
              r.sourceType = JValue.jstr "custom") ∧
            (∀ v, jsGetProp p "sourceType" = Except.ok (some v) →
              jsTruthyV v = true → r.sourceType = v) ∧
            (jsGetProp p "models" = Except.ok none → r.models = JValue.jarr []) ∧
            (jsGetProp p "isFavorite" = Except.ok none →
              r.isFavorite = JValue.jbool false)) := by
  constructor
  · cases hpar : jsonParse s with
    | none => simp [importPresets, hpar]
    | some data =>
      cases hg : jsGetProp data "presets" with
      | error e => simp [importPresets, hpar, hg]
      | ok pv =>
        cases pv with
        | none =>
          simp only [importPresets, hpar, hg, jsTruthy, isArrJ]
          constructor
          · intro _
            exact Or.inl (fun es h => by cases h)
          · intro _; trivial
        | some v =>
          cases v with
          | jarr es =>
            simp only [importPresets, hpar, hg, jsTruthy, jsTruthyV, isArrJ,
              Bool.not_true, Bool.false_or, Bool.or_self, if_false]
            by_cases hmem : JValue.jnull ∈ es
            · rw [importList_null_mem gen now es 0 hmem]
              constructor
              · intro _
                exact Or.inr ⟨es, rfl, hmem⟩
              · intro _; trivial
            · obtain ⟨rs, hok, _, _⟩ := importList_ok gen now es 0 hmem
              rw [hok]
              constructor
              · intro h; cases h
              · intro h
                rcases h with h | ⟨es', heq, hmem'⟩
                · exact absurd rfl (h es)
                · have : es' = es := by
                    have := heq
                    injection this with h2
                    injection h2 with h3
                    exact h3.symm
                  subst this
                  exact absurd hmem' hmem
          | jnull =>
            simp only [importPresets, hpar, hg, jsTruthy, jsTruthyV, isArrJ]
            constructor
            · intro _
              exact Or.inl (fun es h => by cases h)
            · intro _; trivial
          | jbool b =>
            simp only [importPresets, hpar, hg, jsTruthy, jsTruthyV, isArrJ,
              Bool.not_false, Bool.or_true, if_true]
            constructor
            · intro _
              exact Or.inl (fun es h => by cases h)
            · intro _; trivial
          | jnum l =>
            simp only [importPresets, hpar, hg, jsTruthy, jsTruthyV, isArrJ,
              Bool.not_false, Bool.or_true, if_true]
            constructor
            · intro _
              exact Or.inl (fun es h => by cases h)
            · intro _; trivial
          | jstr t =>
            simp only [importPresets, hpar, hg, jsTruthy, jsTruthyV, isArrJ,
              Bool.not_false, Bool.or_true, if_true]
            constructor
            · intro _
              exact Or.inl (fun es h => by cases h)
            · intro _; trivial
          | jobj fs =>
            simp only [importPresets, hpar, hg, jsTruthy, jsTruthyV, isArrJ,
              Bool.not_true, Bool.not_false, Bool.or_true, if_true]
            constructor
            · intro _
              exact Or.inl (fun es h => by cases h)
            · intro _; trivial
  · intro data es hpar hg hnn
    obtain ⟨rs, hok, hlen, hfields⟩ := importList_ok gen now es 0 hnn
    refine ⟨rs, ?_, hlen, ?_⟩
    · simp [importPresets, hpar, hg, jsTruthy, jsTruthyV, isArrJ, hok]
    · intro i p hip
      obtain ⟨r, hri, hentry⟩ := hfields i p hip
      have hp : p ≠ JValue.jnull := by
        intro h
        subst h
        rw [importEntry_null] at hentry
        cases hentry
      obtain ⟨o1, e1⟩ := jsGetProp_ok p hp "sourceId"
      obtain ⟨o2, e2⟩ := jsGetProp_ok p hp "sourceType"
      obtain ⟨o3, e3⟩ := jsGetProp_ok p hp "name"
      obtain ⟨o4, e4⟩ := jsGetProp_ok p hp "description"
      obtain ⟨o5, e5⟩ := jsGetProp_ok p hp "models"
      obtain ⟨o6, e6⟩ := jsGetProp_ok p hp "isFavorite"
      have heq := importEntry_eq gen now (0 + i) p o1 o2 o3 o4 o5 o6 e1 e2 e3 e4 e5 e6
      rw [hentry] at heq
      injection heq with hre
      subst hre
      refine ⟨_, hri, by simp [Nat.zero_add], rfl, ?_, ?_, ?_, ?_, ?_⟩
      · intro hnone
        rw [e1] at hnone
        injection hnone with ho
        subst ho
        rfl
      · intro hnone
        rw [e2] at hnone
        injection hnone with ho
        subst ho
        rfl
      · intro v hv htr
        rw [e2] at hv
        injection hv with ho
        subst ho
        simp [jsOr, htr]
      · intro hnone
        rw [e5] at hnone
        injection hnone with ho
        subst ho
        rfl
      · intro hnone
        rw [e6] at hnone
        injection hnone with ho
        subst ho
        rfl

/-- Concrete import document for the C6 witness. -/
def c6doc : String := "\x7b\"presets\":[\x7b\"name\":\"T\"\x7d]\x7d"

/-- Parse result of `c6doc`. -/
def c6data : JValue :=
  JValue.jobj [("presets", JValue.jarr [JValue.jobj [("name", JValue.jstr "T")]])]

/-- The entries array inside `c6data`. -/
def c6es : List JValue := [JValue.jobj [("name", JValue.jstr "T")]]

/-- Witness for `c6_importPresets_spec`: the success part applied to a
concrete one-entry document, with every hypothesis discharged by
evaluation. -/
theorem c6_importPresets_spec_witness :
    (jsonParse c6doc = some c6data ∧
      jsGetProp c6data "presets" = Except.ok (some (JValue.jarr c6es)) ∧
      JValue.jnull ∉ c6es) ∧
    (∃ rs, importPresets genW 0 c6doc = some rs ∧ rs.length = c6es.length ∧
      ∀ i p, c6es.get? i = some p →
        ∃ r, rs.get? i = some r ∧
          r.id = genW i ∧ r.isModified = false ∧
          (jsGetProp p "sourceId" = Except.ok none →
            r.sourceId = JValue.jstr ("imported-" ++ toString 0)) ∧
          (jsGetProp p "sourceType" = Except.ok none →
            r.sourceType = JValue.jstr "custom") ∧
          (∀ v, jsGetProp p "sourceType" = Except.ok (some v) →
            jsTruthyV v = true → r.sourceType = v) ∧
          (jsGetProp p "models" = Except.ok none → r.models = JValue.jarr []) ∧
          (jsGetProp p "isFavorite" = Except.ok none →
            r.isFavorite = JValue.jbool false)) :=
  ⟨⟨rfl, rfl, by intro h; simp [c6es] at h⟩,
    (c6_importPresets_spec genW 0 c6doc).2 c6data c6es rfl rfl
      (by intro h; simp [c6es] at h)⟩

/-! ## Parsing the module's own serialized output

The family of lemmas below shows that the fueled parser inverts the two
printers (`JSON.stringify` compact for share links, indent-2 for the export
document). Fuel hypotheses are stated as "the printed piece's length fits in
the fuel": the parser spends at most one unit of fuel per printed
character of the piece it is consuming. -/

theorem escapeChar_length_pos (c : Char) : 1 ≤ (escapeChar c).length := by
  unfold escapeChar
  split
  · simp
  · split
    · simp
    · split
      · simp
      · split
        · simp
        · split
          · simp
          · split
            · simp
            · split
              · simp
              · split
                · simp
                · simp

theorem escapeList_cons (c : Char) (cs : List Char) :
    escapeList (c :: cs) = escapeChar c ++ escapeList cs := by
  simp [escapeList]

theorem hexVal_hexDigitChar_fin : ∀ n : Fin 16, hexVal (hexDigitChar n.val) = some n.val := by
  decide

theorem hexVal_hexDigitChar (n : Nat) (h : n < 16) : hexVal (hexDigitChar n) = some n :=
  hexVal_hexDigitChar_fin ⟨n, h⟩

theorem skipWs_cons_not_ws (c : Char) (l : List Char) (h : isWsC c = false) :
    skipWs (c :: l) = c :: l := by
  simp [skipWs, h]

theorem skipWs_nlInd (n : Nat) (l : List Char) : skipWs (nlInd n ++ l) = skipWs l := by
  unfold nlInd
  induction n with
  | zero => simp [skipWs, isWsC]
  | succ m ih =>
    have : 2 * (m + 1) = (2 * m) + 1 + 1 := by omega
    rw [this]
    simp only [List.replicate_succ, List.cons_append]
    show skipWs (Char.ofNat 10 :: ' ' :: ' ' :: (List.replicate (2 * m) ' ' ++ l)) = skipWs l
    have h10 : isWsC (Char.ofNat 10) = true := by decide
    have hsp : isWsC ' ' = true := by decide
    simp only [skipWs, h10, hsp, if_true]
    have := ih
    simpa [skipWs, h10, if_true] using this

/-- Reading a `\u00XX` escape (the shape the printer emits for an unnamed
control character) yields the character back. -/
theorem parseStringBody_u00_digits (f t : Nat) (ht : t < 32) (X : List Char) :
    parseStringBody (f + 1) ('\\' :: 'u' :: '0' :: '0'
        :: hexDigitChar (t / 16) :: hexDigitChar (t % 16) :: X)
      = (parseStringBody f X).map (fun pr => (Char.ofNat t :: pr.1, pr.2)) := by
  interval_cases t <;> rfl

/-- Core string round-trip: the parser undoes `JSON.stringify`'s escaping,
stopping at the closing quote. -/
theorem parseStringBody_escape :
    ∀ (s : List Char) (fuel : Nat) (rest : List Char),
      (escapeList s).length + 1 ≤ fuel →
      parseStringBody fuel (escapeList s ++ '"' :: rest) = some (s, rest) := by
  intro s
  induction s with
  | nil =>
    intro fuel rest hf
    cases fuel with
    | zero => omega
    | succ f => rfl
  | cons c cs ih =>
    intro fuel rest hf
    cases fuel with
    | zero => omega
    | succ f =>
      have hc1 := escapeChar_length_pos c
      have hlen : (escapeList (c :: cs)).length
          = (escapeChar c).length + (escapeList cs).length := by
        rw [escapeList_cons, List.length_append]
      have hih : (escapeList cs).length + 1 ≤ f := by omega
      by_cases h1 : c = '"'
      · subst h1
        show Option.map (fun pr => ('"' :: pr.1, pr.2))
            (parseStringBody f (escapeList cs ++ '"' :: rest)) = some ('"' :: cs, rest)
        rw [ih f rest hih]
        rfl
      · by_cases h2 : c = '\\'
        · subst h2
          show Option.map (fun pr => ('\\' :: pr.1, pr.2))
              (parseStringBody f (escapeList cs ++ '"' :: rest)) = some ('\\' :: cs, rest)
          rw [ih f rest hih]
          rfl
        · by_cases h3 : c = Char.ofNat 8
          · subst h3
            show Option.map (fun pr => (Char.ofNat 8 :: pr.1, pr.2))
                (parseStringBody f (escapeList cs ++ '"' :: rest))
              = some (Char.ofNat 8 :: cs, rest)
            rw [ih f rest hih]
            rfl
          · by_cases h4 : c = Char.ofNat 9
            · subst h4
              show Option.map (fun pr => (Char.ofNat 9 :: pr.1, pr.2))
                  (parseStringBody f (escapeList cs ++ '"' :: rest))
                = some (Char.ofNat 9 :: cs, rest)
              rw [ih f rest hih]
              rfl
            · by_cases h5 : c = Char.ofNat 10
              · subst h5
                show Option.map (fun pr => (Char.ofNat 10 :: pr.1, pr.2))
                    (parseStringBody f (escapeList cs ++ '"' :: rest))
                  = some (Char.ofNat 10 :: cs, rest)
                rw [ih f rest hih]
                rfl
              · by_cases h6 : c = Char.ofNat 12
                · subst h6
                  show Option.map (fun pr => (Char.ofNat 12 :: pr.1, pr.2))
                      (parseStringBody f (escapeList cs ++ '"' :: rest))
                    = some (Char.ofNat 12 :: cs, rest)
                  rw [ih f rest hih]
                  rfl
                · by_cases h7 : c = Char.ofNat 13
                  · subst h7
                    show Option.map (fun pr => (Char.ofNat 13 :: pr.1, pr.2))
                        (parseStringBody f (escapeList cs ++ '"' :: rest))
                      = some (Char.ofNat 13 :: cs, rest)
                    rw [ih f rest hih]
                    rfl
                  · by_cases h8 : c.toNat < 0x20
                    · have he : escapeChar c = ['\\', 'u', '0', '0',
                          hexDigitChar (c.toNat / 16), hexDigitChar (c.toNat % 16)] := by
                        unfold escapeChar
                        rw [if_neg h1, if_neg h2, if_neg h3, if_neg h4, if_neg h5,
                          if_neg h6, if_neg h7, if_pos h8]
                      rw [escapeList_cons, he]
                      show parseStringBody (f + 1) ('\\' :: 'u' :: '0' :: '0'
                          :: hexDigitChar (c.toNat / 16) :: hexDigitChar (c.toNat % 16)
                          :: (escapeList cs ++ '"' :: rest)) = some (c :: cs, rest)
                      rw [parseStringBody_u00_digits f c.toNat h8
                        (escapeList cs ++ '"' :: rest)]
                      rw [ih f rest hih]
                      simp [Char.ofNat_toNat]
                    · have he : escapeChar c = [c] := by
                        unfold escapeChar
                        rw [if_neg h1, if_neg h2, if_neg h3, if_neg h4, if_neg h5,
                          if_neg h6, if_neg h7, if_neg h8]
                      rw [escapeList_cons, he]
                      show parseStringBody (f + 1) (c :: (escapeList cs ++ '"' :: rest))
                        = some (c :: cs, rest)
                      simp only [parseStringBody]
                      rw [if_neg h1, if_neg h2, if_neg h8]
                      rw [ih f rest hih]
                      rfl

/-! ### Values of the printed documents -/

/-- The continuation after a printed value always starts with a comma, a
newline (pretty layout), a closing brace or a closing bracket — the shapes
that stop the maximal-munch number lexer. -/
def headOk (l : List Char) : Prop :=
  ∀ c, l.head? = some c → (c = ',' ∨ c = Char.ofNat 10 ∨ c = '}' ∨ c = ']')

theorem skipWs_space (X : List Char) : skipWs (' ' :: X) = skipWs X := rfl

theorem parseValue_ws_prefix (f : Nat) (pre X : List Char)
    (hpre : skipWs (pre ++ X) = skipWs X) :
    parseValue (f + 1) (pre ++ X) = parseValue (f + 1) X := by
  simp only [parseValue]
  rw [hpre]

theorem parseMembers_ws_prefix (f : Nat) (pre X : List Char)
    (hpre : skipWs (pre ++ X) = skipWs X) :
    parseMembers (f + 1) (pre ++ X) = parseMembers (f + 1) X := by
  simp only [parseMembers]
  rw [hpre]

/-- Parsing a printed string value. -/
theorem pv_str (s : String) : ∀ (g : Nat) (after : List Char),
    (printStr s).length ≤ g → headOk after →
    parseValue g (printStr s ++ after) = some (JValue.jstr s, after) := by
  intro g after hg _
  have hlen : (printStr s).length = (escapeList s.data).length + 2 := by
    simp [printStr]
  cases g with
  | zero => omega
  | succ f =>
    have hshape : printStr s ++ after
        = '"' :: (escapeList s.data ++ '"' :: after) := by
      simp [printStr]
    rw [hshape]
    show (parseStringBody (f + 1) (escapeList s.data ++ '"' :: after)).map
        (fun pr => (JValue.jstr (String.mk pr.1), pr.2)) = some (JValue.jstr s, after)
    rw [parseStringBody_escape s.data (f + 1) after (by omega)]
    rfl

/-- Printed boolean literal. -/
def printBool (b : Bool) : List Char := if b then "true".data else "false".data

/-- Parsing a printed boolean value. -/
theorem pv_bool (b : Bool) : ∀ (g : Nat) (after : List Char),
    (printBool b).length ≤ g → headOk after →
    parseValue g (printBool b ++ after) = some (JValue.jbool b, after) := by
  intro g after hg _
  cases b
  · cases g with
    | zero => simp [printBool] at hg
    | succ f => rfl
  · cases g with
    | zero => simp [printBool] at hg
    | succ f => rfl

/-- Parsing the number literal `1` (the export document's `version`), which
stops at the following comma/newline/brace/bracket. -/
theorem pv_num1 : ∀ (g : Nat) (after : List Char),
    (['1'] : List Char).length ≤ g → headOk after →
    parseValue g ('1' :: after) = some (JValue.jnum ['1'], after) := by
  intro g after hg hok
  cases g with
  | zero => simp at hg
  | succ f =>
    cases after with
    | nil => rfl
    | cons c t =>
      rcases hok c rfl with h | h | h | h <;> subst h <;> rfl

/-! ### Uniform member / element chains

A printed object body is a chain of `pre ++ "key": sep ++ value` members
(`pre` the optional newline+indent, `sep` the optional space after the
colon); a printed array body is a chain of `pre ++ value` elements. One
lemma per chain processes both the compact and the indent-2 layouts. -/

/-- Rendered members joined by commas. Items carry (key, printed value,
parsed value). -/
def memberText (pre sep : List Char) : List (String × List Char × JValue) → List Char
  | [] => []
  | [it] => pre ++ printStr it.1 ++ ':' :: (sep ++ it.2.1)
  | it :: it2 :: rest =>
    pre ++ printStr it.1 ++ ':' :: (sep ++ it.2.1) ++ ',' :: memberText pre sep (it2 :: rest)

/-- Rendered elements joined by commas. Items carry (printed value, parsed
value). -/
def elemText (pre : List Char) : List (List Char × JValue) → List Char
  | [] => []
  | [it] => pre ++ it.1
  | it :: it2 :: rest => pre ++ it.1 ++ ',' :: elemText pre (it2 :: rest)

/-- Fuel needed by the member chain. -/
def memberChainLen : List (String × List Char × JValue) → Nat
  | [] => 0
  | it :: rest => (printStr it.1).length + it.2.1.length + 1 + memberChainLen rest

/-- Fuel needed by the element chain. -/
def elemChainLen : List (List Char × JValue) → Nat
  | [] => 0
  | it :: rest => it.1.length + 1 + elemChainLen rest

theorem memberChainLen_le_text (pre sep : List Char) :
    ∀ (items : List (String × List Char × JValue)), items ≠ [] →
      memberChainLen items ≤ (memberText pre sep items).length + 1 := by
  intro items
  induction items with
  | nil => intro h; cases h rfl
  | cons it rest ih =>
    intro _
    cases rest with
    | nil =>
      simp only [memberChainLen, memberText]
      simp [List.length_append]
      omega
    | cons it2 rest2 =>
      have h2 := ih (by simp)
      simp only [memberChainLen, memberText] at h2 ⊢
      simp [List.length_append] at h2 ⊢
      omega

theorem elemChainLen_le_text (pre : List Char) :
    ∀ (items : List (List Char × JValue)), items ≠ [] →
      elemChainLen items ≤ (elemText pre items).length + 1 := by
  intro items
  induction items with
  | nil => intro h; cases h rfl
  | cons it rest ih =>
    intro _
    cases rest with
    | nil =>
      simp only [elemChainLen, elemText]
      simp [List.length_append]
    | cons it2 rest2 =>
      have h2 := ih (by simp)
      simp only [elemChainLen, elemText] at h2 ⊢
      simp [List.length_append] at h2 ⊢
      omega

/-- Processing one `"key": value` member: the key string, the colon, the
value, and then the comma/close dispatch. -/
theorem parseMembers_one (g : Nat) (k : String) (vin : List Char) (v : JValue)
    (after : List Char)
    (hkb : (escapeList k.data).length + 1 ≤ g + 1)
    (hv : parseValue g (vin ++ after) = some (v, after)) :
    parseMembers (g + 1) (printStr k ++ ':' :: (vin ++ after))
      = (match skipWs after with
         | ',' :: rest4 =>
           match parseMembers g rest4 with
           | none => none
           | some (ms, rest5) => some ((k, v) :: ms, rest5)
         | '}' :: rest4 => some ([(k, v)], rest4)
         | _ => none) := by
  have hshape : printStr k ++ ':' :: (vin ++ after)
      = '"' :: (escapeList k.data ++ '"' :: (':' :: (vin ++ after))) := by
    simp [printStr]
  rw [hshape]
  have hkey := parseStringBody_escape k.data (g + 1) (':' :: (vin ++ after)) hkb
  show (match parseStringBody (g + 1) (escapeList k.data ++ '"' :: (':' :: (vin ++ after))) with
        | none => none
        | some (key, rest1) =>
          match skipWs rest1 with
          | ':' :: rest2 =>
            match parseValue g rest2 with
            | none => none
            | some (v2, rest3) =>
              match skipWs rest3 with
              | ',' :: rest4 =>
                match parseMembers g rest4 with
                | none => none
                | some (ms, rest5) => some ((String.mk key, v2) :: ms, rest5)
              | '}' :: rest4 => some ([(String.mk key, v2)], rest4)
              | _ => none
          | _ => none) = _
  rw [hkey]
  show (match parseValue g (vin ++ after) with
        | none => none
        | some (v2, rest3) =>
          match skipWs rest3 with
          | ',' :: rest4 =>
            match parseMembers g rest4 with
            | none => none
            | some (ms, rest5) => some ((k, v2) :: ms, rest5)
          | '}' :: rest4 => some ([(k, v2)], rest4)
          | _ => none) = _
  rw [hv]

/-- Processing one array element: the value, then the comma/close
dispatch. -/
theorem parseElems_one (g : Nat) (vin : List Char) (v : JValue) (after : List Char)
    (hv : parseValue g (vin ++ after) = some (v, after)) :
    parseElems (g + 1) (vin ++ after)
      = (match skipWs after with
         | ',' :: rest2 =>
           match parseElems g rest2 with
           | none => none
           | some (vs, rest3) => some (v :: vs, rest3)
         | ']' :: rest2 => some ([v], rest2)
         | _ => none) := by
  show (match parseValue g (vin ++ after) with
        | none => none
        | some (v2, rest) =>
          match skipWs rest with
          | ',' :: rest2 =>
            match parseElems g rest2 with
            | none => none
            | some (vs, rest3) => some (v2 :: vs, rest3)
          | ']' :: rest2 => some ([v2], rest2)
          | _ => none) = _
  rw [hv]

/-- A comma-headed continuation is a safe value boundary. -/
theorem headOk_comma (T : List Char) : headOk (',' :: T) := by
  intro c hc
  simp at hc
  subst hc
  exact Or.inl rfl

/-- Parsing a whole printed member chain up to and including the closing
brace. -/
theorem parseMembers_chain (pre sep cls : List Char)
    (hpre : ∀ X, skipWs (pre ++ X) = skipWs X)
    (hsep : ∀ X, skipWs (sep ++ X) = skipWs X)
    (hcls : ∀ X, skipWs (cls ++ X) = skipWs X) :
    ∀ (items : List (String × List Char × JValue)), items ≠ [] →
    ∀ (fuel : Nat) (rest : List Char),
      (∀ it ∈ items, ∀ (g : Nat) (after : List Char), it.2.1.length ≤ g → headOk after →
        parseValue g (it.2.1 ++ after) = some (it.2.2, after)) →
      memberChainLen items ≤ fuel →
      headOk (cls ++ '}' :: rest) →
      parseMembers fuel (memberText pre sep items ++ (cls ++ '}' :: rest))
        = some (items.map (fun it => (it.1, it.2.2)), rest) := by
  intro items
  induction items with
  | nil => intro h; cases h rfl
  | cons it more ih =>
    intro _ fuel rest hvals hfuel hok
    have hplen : (printStr it.1).length = (escapeList it.1.data).length + 2 := by
      simp [printStr]
    simp only [memberChainLen] at hfuel
    obtain ⟨g2, rfl⟩ : ∃ g2, fuel = g2 + 1 + 1 := ⟨fuel - 2, by omega⟩
    have hval1 := hvals it (List.mem_cons_self it more)
    cases more with
    | nil =>
      have hassoc : memberText pre sep [it] ++ (cls ++ '}' :: rest)
          = pre ++ (printStr it.1 ++ ':' :: (sep ++ (it.2.1 ++ (cls ++ '}' :: rest)))) := by
        simp [memberText, List.append_assoc]
      rw [hassoc, parseMembers_ws_prefix (g2 + 1) _ _ (hpre _)]
      have hv : parseValue (g2 + 1) ((sep ++ it.2.1) ++ (cls ++ '}' :: rest))
          = some (it.2.2, cls ++ '}' :: rest) := by
        rw [List.append_assoc, parseValue_ws_prefix g2 _ _ (hsep _)]
        exact hval1 (g2 + 1) (cls ++ '}' :: rest) (by omega) hok
      have hback : sep ++ (it.2.1 ++ (cls ++ '}' :: rest))
          = (sep ++ it.2.1) ++ (cls ++ '}' :: rest) := by
        rw [List.append_assoc]
      rw [hback, parseMembers_one (g2 + 1) it.1 (sep ++ it.2.1) it.2.2
        (cls ++ '}' :: rest) (by omega) hv]
      have hclose : skipWs (cls ++ '}' :: rest) = '}' :: rest := by
        rw [hcls]
        exact skipWs_cons_not_ws '}' rest (by decide)
      rw [hclose]
      rfl
    | cons it2 more2 =>
      simp only [memberChainLen] at hfuel
      have hassoc : memberText pre sep (it :: it2 :: more2) ++ (cls ++ '}' :: rest)
          = pre ++ (printStr it.1 ++ ':' :: ((sep ++ it.2.1)
              ++ (',' :: (memberText pre sep (it2 :: more2) ++ (cls ++ '}' :: rest))))) := by
        simp [memberText, List.append_assoc]
      rw [hassoc, parseMembers_ws_prefix (g2 + 1) _ _ (hpre _)]
      have hv : parseValue (g2 + 1) ((sep ++ it.2.1)
            ++ (',' :: (memberText pre sep (it2 :: more2) ++ (cls ++ '}' :: rest))))
          = some (it.2.2, ',' :: (memberText pre sep (it2 :: more2) ++ (cls ++ '}' :: rest))) := by
        rw [List.append_assoc, parseValue_ws_prefix g2 _ _ (hsep _)]
        exact hval1 (g2 + 1) _ (by omega) (headOk_comma _)
      rw [parseMembers_one (g2 + 1) it.1 (sep ++ it.2.1) it.2.2
        (',' :: (memberText pre sep (it2 :: more2) ++ (cls ++ '}' :: rest))) (by omega) hv]
      have hcomma : skipWs (',' :: (memberText pre sep (it2 :: more2) ++ (cls ++ '}' :: rest)))
          = ',' :: (memberText pre sep (it2 :: more2) ++ (cls ++ '}' :: rest)) :=
        skipWs_cons_not_ws ',' _ (by decide)
      rw [hcomma]
      show (match parseMembers (g2 + 1)
            (memberText pre sep (it2 :: more2) ++ (cls ++ '}' :: rest)) with
        | none => none
        | some (ms, rest5) => some ((it.1, it.2.2) :: ms, rest5)) = _
      rw [ih (by simp) (g2 + 1) rest
        (fun x hx => hvals x (List.mem_cons_of_mem it hx))
        (by simp only [memberChainLen] at hfuel ⊢; omega) hok]
      rfl

/-- Parsing a whole printed element chain up to and including the closing
bracket. -/
theorem parseElems_chain (pre cls : List Char)
    (hpre : ∀ X, skipWs (pre ++ X) = skipWs X)
    (hcls : ∀ X, skipWs (cls ++ X) = skipWs X) :
    ∀ (items : List (List Char × JValue)), items ≠ [] →
    ∀ (fuel : Nat) (rest : List Char),
      (∀ it ∈ items, ∀ (g : Nat) (after : List Char), it.1.length ≤ g → headOk after →
        parseValue g (it.1 ++ after) = some (it.2, after)) →
      (∀ it ∈ items, 1 ≤ it.1.length) →
      elemChainLen items ≤ fuel →
      headOk (cls ++ ']' :: rest) →
      parseElems fuel (elemText pre items ++ (cls ++ ']' :: rest))
        = some (items.map (fun it => it.2), rest) := by
  intro items
  induction items with
  | nil => intro h; cases h rfl
  | cons it more ih =>
    intro _ fuel rest hvals hlen1 hfuel hok
    simp only [elemChainLen] at hfuel
    have hit1 : 1 ≤ it.1.length := hlen1 it (List.mem_cons_self it more)
    obtain ⟨g, rfl⟩ : ∃ g, fuel = g + 1 := ⟨fuel - 1, by omega⟩
    have hval1 := hvals it (List.mem_cons_self it more)
    cases more with
    | nil =>
      have hassoc : elemText pre [it] ++ (cls ++ ']' :: rest)
          = (pre ++ it.1) ++ (cls ++ ']' :: rest) := by
        simp [elemText, List.append_assoc]
      rw [hassoc]
      have hv : parseValue g ((pre ++ it.1) ++ (cls ++ ']' :: rest))
          = some (it.2, cls ++ ']' :: rest) := by
        obtain ⟨g1, rfl⟩ : ∃ g1, g = g1 + 1 := ⟨g - 1, by omega⟩
        rw [List.append_assoc, parseValue_ws_prefix g1 _ _ (hpre _)]
        exact hval1 (g1 + 1) (cls ++ ']' :: rest) (by omega) hok
      clear hit1
      rw [parseElems_one g (pre ++ it.1) it.2 (cls ++ ']' :: rest) hv]
      have hclose : skipWs (cls ++ ']' :: rest) = ']' :: rest := by
        rw [hcls]
        exact skipWs_cons_not_ws ']' rest (by decide)
      rw [hclose]
      rfl
    | cons it2 more2 =>
      simp only [elemChainLen] at hfuel
      have hassoc : elemText pre (it :: it2 :: more2) ++ (cls ++ ']' :: rest)
          = (pre ++ it.1) ++ (',' :: (elemText pre (it2 :: more2) ++ (cls ++ ']' :: rest))) := by
        simp [elemText, List.append_assoc]
      rw [hassoc]
      have hv : parseValue g ((pre ++ it.1)
            ++ (',' :: (elemText pre (it2 :: more2) ++ (cls ++ ']' :: rest))))
          = some (it.2, ',' :: (elemText pre (it2 :: more2) ++ (cls ++ ']' :: rest))) := by
        obtain ⟨g1, rfl⟩ : ∃ g1, g = g1 + 1 := ⟨g - 1, by omega⟩
        rw [List.append_assoc, parseValue_ws_prefix g1 _ _ (hpre _)]
        exact hval1 (g1 + 1) _ (by omega) (headOk_comma _)
      rw [parseElems_one g (pre ++ it.1) it.2
        (',' :: (elemText pre (it2 :: more2) ++ (cls ++ ']' :: rest))) hv]
      have hcomma : skipWs (',' :: (elemText pre (it2 :: more2) ++ (cls ++ ']' :: rest)))
          = ',' :: (elemText pre (it2 :: more2) ++ (cls ++ ']' :: rest)) :=
        skipWs_cons_not_ws ',' _ (by decide)
      rw [hcomma]
      show (match parseElems g (elemText pre (it2 :: more2) ++ (cls ++ ']' :: rest)) with
        | none => none
        | some (vs, rest3) => some (it.2 :: vs, rest3)) = _
      rw [ih (by simp) g rest
        (fun x hx => hvals x (List.mem_cons_of_mem it hx))
        (fun x hx => hlen1 x (List.mem_cons_of_mem it hx))
        (by simp only [elemChainLen] at hfuel ⊢; omega) hok]
      rfl

/-! ### Bridging the printers to the chains -/

theorem skipWs_idem : ∀ l : List Char, skipWs (skipWs l) = skipWs l := by
  intro l
  induction l with
  | nil => rfl
  | cons c cs ih =>
    by_cases h : isWsC c = true
    · simp [skipWs, h, ih]
    · simp only [Bool.not_eq_true] at h
      simp [skipWs, h]

theorem parseValue_congr (g : Nat) (X Y : List Char) (h : skipWs X = skipWs Y) :
    parseValue g X = parseValue g Y := by
  cases g with
  | zero => rfl
  | succ f =>
    simp only [parseValue]
    rw [h]

theorem parseElems_congr (fuel : Nat) (X Y : List Char) (h : skipWs X = skipWs Y) :
    parseElems fuel X = parseElems fuel Y := by
  cases fuel with
  | zero => rfl
  | succ g =>
    simp only [parseElems]
    rw [parseValue_congr g X Y h]

theorem parseMembers_congr (fuel : Nat) (X Y : List Char) (h : skipWs X = skipWs Y) :
    parseMembers fuel X = parseMembers fuel Y := by
  cases fuel with
  | zero => rfl
  | succ g =>
    simp only [parseMembers]
    rw [h]

theorem parseValue_lbrack_bridge (f : Nat) (R : List Char) :
    parseValue (f + 1) ('[' :: R)
      = (match skipWs R with
         | ']' :: r2 => some (JValue.jarr [], r2)
         | r2 => (parseElems f r2).map (fun pr => (JValue.jarr pr.1, pr.2))) := rfl

theorem parseValue_lbrace_bridge (f : Nat) (R : List Char) :
    parseValue (f + 1) ('{' :: R)
      = (match skipWs R with
         | '}' :: r2 => some (JValue.jobj [], r2)
         | r2 => (parseMembers f r2).map (fun pr => (JValue.jobj pr.1, pr.2))) := rfl

/-- After whitespace, a non-empty element chain starts with the head
character of its first printed value. -/
theorem skipWs_elemText_head (pre : List Char) (hpre : ∀ X, skipWs (pre ++ X) = skipWs X)
    (it : List Char × JValue) (more : List (List Char × JValue)) (Z : List Char)
    (c : Char) (tl : List Char) (hc : it.1 = c :: tl) (hwc : isWsC c = false) :
    ∃ tail, skipWs (elemText pre (it :: more) ++ Z) = c :: tail := by
  cases more with
  | nil =>
    refine ⟨tl ++ Z, ?_⟩
    have h1 : elemText pre [it] ++ Z = pre ++ (c :: (tl ++ Z)) := by
      simp [elemText, hc, List.append_assoc]
    rw [h1, hpre, skipWs_cons_not_ws c _ hwc]
  | cons it2 more2 =>
    refine ⟨tl ++ ',' :: (elemText pre (it2 :: more2) ++ Z), ?_⟩
    have h1 : elemText pre (it :: it2 :: more2) ++ Z
        = pre ++ (c :: (tl ++ ',' :: (elemText pre (it2 :: more2) ++ Z))) := by
      simp [elemText, hc, List.append_assoc]
    rw [h1, hpre, skipWs_cons_not_ws c _ hwc]

/-- After whitespace, a non-empty member chain starts with the key's opening
quote. -/
theorem skipWs_memberText_head (pre sep : List Char)
    (hpre : ∀ X, skipWs (pre ++ X) = skipWs X)
    (it : String × List Char × JValue) (more : List (String × List Char × JValue))
    (Z : List Char) :
    ∃ tail, skipWs (memberText pre sep (it :: more) ++ Z) = '"' :: tail := by
  cases more with
  | nil =>
    refine ⟨(escapeList it.1.data ++ ['"']) ++ ':' :: (sep ++ it.2.1) ++ Z, ?_⟩
    have h1 : memberText pre sep [it] ++ Z
        = pre ++ ('"' :: ((escapeList it.1.data ++ ['"']) ++ ':' :: (sep ++ it.2.1) ++ Z)) := by
      simp [memberText, printStr, List.append_assoc]
    rw [h1, hpre, skipWs_cons_not_ws '"' _ (by decide)]
  | cons it2 more2 =>
    refine ⟨(escapeList it.1.data ++ ['"']) ++ ':' :: (sep ++ it.2.1)
      ++ ',' :: (memberText pre sep (it2 :: more2) ++ Z), ?_⟩
    have h1 : memberText pre sep (it :: it2 :: more2) ++ Z
        = pre ++ ('"' :: ((escapeList it.1.data ++ ['"']) ++ ':' :: (sep ++ it.2.1)
            ++ ',' :: (memberText pre sep (it2 :: more2) ++ Z))) := by
      simp [memberText, printStr, List.append_assoc]
    rw [h1, hpre, skipWs_cons_not_ws '"' _ (by decide)]

/-- Compact comma-join of rendered elements is the element chain with no
gaps. -/
theorem joinComma_eq_elemText :
    ∀ (its : List (List Char × JValue)),
      joinComma (its.map (fun it => it.1)) = elemText [] its := by
  intro its
  induction its with
  | nil => rfl
  | cons it more ih =>
    cases more with
    | nil => simp [joinComma, elemText]
    | cons it2 more2 =>
      simp only [List.map_cons] at ih ⊢
      rw [joinComma, elemText, ih]
      simp

/-- Indent-2 join of rendered elements is the element chain with
newline+indent gaps. -/
theorem joinItemsI_eq_elemText (m : Nat) :
    ∀ (its : List (List Char × JValue)),
      joinItemsI m (its.map (fun it => it.1)) = elemText (nlInd m) its := by
  intro its
  induction its with
  | nil => rfl
  | cons it more ih =>
    cases more with
    | nil => simp [joinItemsI, elemText]
    | cons it2 more2 =>
      simp only [List.map_cons] at ih ⊢
      rw [joinItemsI, elemText, ih]

/-- Indent-2 join of rendered `"key": value` members is the member chain
with newline+indent gaps and a space separator. -/
theorem joinItemsI_eq_memberText (m : Nat) :
    ∀ (its : List (String × List Char × JValue)),
      joinItemsI m (its.map (fun it => prettyObjMember it.1 it.2.1))
        = memberText (nlInd m) [' '] its := by
  intro its
  induction its with
  | nil => rfl
  | cons it more ih =>
    cases more with
    | nil => simp [joinItemsI, memberText, prettyObjMember, List.append_assoc]
    | cons it2 more2 =>
      simp only [List.map_cons] at ih ⊢
      rw [joinItemsI, memberText, ih]
      simp [prettyObjMember, List.append_assoc]

/-- Items of a string array, as chain triples. -/
def strItems (ss : List String) : List (List Char × JValue) :=
  ss.map (fun s => (printStr s, JValue.jstr s))

theorem strItems_fst (ss : List String) :
    (strItems ss).map (fun it => it.1) = ss.map printStr := by
  simp [strItems, List.map_map, Function.comp]

theorem strItems_snd (ss : List String) :
    (strItems ss).map (fun it => it.2) = ss.map JValue.jstr := by
  simp [strItems, List.map_map, Function.comp]

theorem strItems_vals (ss : List String) :
    ∀ it ∈ strItems ss, ∀ (g : Nat) (after : List Char),
      it.1.length ≤ g → headOk after →
      parseValue g (it.1 ++ after) = some (it.2, after) := by
  intro it hit g after hlen hok
  obtain ⟨s, _, hs⟩ := List.mem_map.mp hit
  subst hs
  exact pv_str s g after hlen hok

theorem strItems_len1 (ss : List String) : ∀ it ∈ strItems ss, 1 ≤ it.1.length := by
  intro it hit
  obtain ⟨s, _, hs⟩ := List.mem_map.mp hit
  subst hs
  simp [printStr]

theorem headOk_rbrack (after : List Char) : headOk (']' :: after) := by
  intro c hc
  simp at hc
  subst hc
  exact Or.inr (Or.inr (Or.inr rfl))

theorem headOk_rbrace (after : List Char) : headOk ('}' :: after) := by
  intro c hc
  simp at hc
  subst hc
  exact Or.inr (Or.inr (Or.inl rfl))

theorem headOk_nlInd (n : Nat) (Z : List Char) : headOk (nlInd n ++ Z) := by
  intro c hc
  simp [nlInd] at hc
  subst hc
  exact Or.inr (Or.inl rfl)

/-- Parsing a compact-printed string array value. -/
theorem pv_strArrC (ss : List String) : ∀ (g : Nat) (after : List Char),
    (printStrArrC ss).length ≤ g → headOk after →
    parseValue g (printStrArrC ss ++ after) = some (JValue.jarr (ss.map JValue.jstr), after) := by
  intro g after hg _
  cases g with
  | zero => simp [printStrArrC] at hg
  | succ f =>
    cases ss with
    | nil => rfl
    | cons x t =>
      have hsh : printStrArrC (x :: t) ++ after
          = '[' :: (joinComma ((x :: t).map printStr) ++ (']' :: after)) := by
        simp [printStrArrC, List.append_assoc]
      rw [hsh, parseValue_lbrack_bridge]
      have htext : joinComma ((x :: t).map printStr) = elemText [] (strItems (x :: t)) := by
        rw [← strItems_fst (x :: t)]
        exact joinComma_eq_elemText (strItems (x :: t))
      rw [htext]
      have hcons : strItems (x :: t) = (printStr x, JValue.jstr x) :: strItems t := by
        simp [strItems]
      rw [hcons]
      obtain ⟨tail, htail⟩ := skipWs_elemText_head [] (fun X => rfl)
        (printStr x, JValue.jstr x) (strItems t) (']' :: after)
        '"' (escapeList x.data ++ ['"']) (by simp [printStr]) (by decide)
      rw [htail]
      show (parseElems f ('"' :: tail)).map (fun pr => (JValue.jarr pr.1, pr.2)) = _
      have hcg : parseElems f ('"' :: tail)
          = parseElems f (elemText []
              ((printStr x, JValue.jstr x) :: strItems t) ++ (']' :: after)) := by
        apply parseElems_congr
        rw [← htail, skipWs_idem]
      rw [hcg]
      have hbound : elemChainLen ((printStr x, JValue.jstr x) :: strItems t) ≤ f := by
        have h1 := elemChainLen_le_text []
          ((printStr x, JValue.jstr x) :: strItems t) (by simp)
        have h2 : (printStrArrC (x :: t)).length
            = (joinComma ((x :: t).map printStr)).length + 2 := by
          simp [printStrArrC]
        have h3 := congrArg List.length htext
        rw [hcons] at h3
        omega
      have hchain := parseElems_chain [] [] (fun X => rfl) (fun X => rfl)
        ((printStr x, JValue.jstr x) :: strItems t) (by simp) f after
        (by rw [← hcons]; exact strItems_vals (x :: t))
        (by rw [← hcons]; exact strItems_len1 (x :: t))
        hbound
        (by simpa using headOk_rbrack after)
      simp only [List.nil_append] at hchain
      rw [hchain]
      have hsnd : ((printStr x, JValue.jstr x) :: strItems t).map (fun it => it.2)
          = (x :: t).map JValue.jstr := by
        rw [← hcons]
        exact strItems_snd (x :: t)
      rw [hsnd]
      rfl

/-- Parsing an indent-2-printed string array value at nesting level `n`. -/
theorem pv_strArrP (n : Nat) (ss : List String) : ∀ (g : Nat) (after : List Char),
    (prettyArr n (ss.map printStr)).length ≤ g → headOk after →
    parseValue g (prettyArr n (ss.map printStr) ++ after)
      = some (JValue.jarr (ss.map JValue.jstr), after) := by
  intro g after hg _
  cases g with
  | zero => cases ss <;> simp [prettyArr] at hg
  | succ f =>
    cases ss with
    | nil => rfl
    | cons x t =>
      have hsh : prettyArr n ((x :: t).map printStr) ++ after
          = '[' :: (joinItemsI (n + 1) ((x :: t).map printStr)
              ++ (nlInd n ++ ']' :: after)) := by
        simp [prettyArr, List.append_assoc]
      rw [hsh, parseValue_lbrack_bridge]
      have htext : joinItemsI (n + 1) ((x :: t).map printStr)
          = elemText (nlInd (n + 1)) (strItems (x :: t)) := by
        rw [← strItems_fst (x :: t)]
        exact joinItemsI_eq_elemText (n + 1) (strItems (x :: t))
      rw [htext]
      have hcons : strItems (x :: t) = (printStr x, JValue.jstr x) :: strItems t := by
        simp [strItems]
      rw [hcons]
      obtain ⟨tail, htail⟩ := skipWs_elemText_head (nlInd (n + 1))
        (fun X => skipWs_nlInd (n + 1) X)
        (printStr x, JValue.jstr x) (strItems t) (nlInd n ++ ']' :: after)
        '"' (escapeList x.data ++ ['"']) (by simp [printStr]) (by decide)
      rw [htail]
      show (parseElems f ('"' :: tail)).map (fun pr => (JValue.jarr pr.1, pr.2)) = _
      have hcg : parseElems f ('"' :: tail)
          = parseElems f (elemText (nlInd (n + 1))
              ((printStr x, JValue.jstr x) :: strItems t) ++ (nlInd n ++ ']' :: after)) := by
        apply parseElems_congr
        rw [← htail, skipWs_idem]
      rw [hcg]
      have hbound : elemChainLen ((printStr x, JValue.jstr x) :: strItems t) ≤ f := by
        have h1 := elemChainLen_le_text (nlInd (n + 1))
          ((printStr x, JValue.jstr x) :: strItems t) (by simp)
        have h2 : (prettyArr n ((x :: t).map printStr)).length
            = (joinItemsI (n + 1) ((x :: t).map printStr)).length + (nlInd n).length + 2 := by
          simp [prettyArr]
          omega
        have h3 := congrArg List.length htext
        rw [hcons] at h3
        have h4 : 1 ≤ (nlInd n).length := by simp [nlInd]
        omega
      have hchain := parseElems_chain (nlInd (n + 1)) (nlInd n)
        (fun X => skipWs_nlInd (n + 1) X) (fun X => skipWs_nlInd n X)
        ((printStr x, JValue.jstr x) :: strItems t) (by simp) f after
        (by rw [← hcons]; exact strItems_vals (x :: t))
        (by rw [← hcons]; exact strItems_len1 (x :: t))
        hbound
        (headOk_nlInd n (']' :: after))
      rw [hchain]
      have hsnd : ((printStr x, JValue.jstr x) :: strItems t).map (fun it => it.2)
          = (x :: t).map JValue.jstr := by
        rw [← hcons]
        exact strItems_snd (x :: t)
      rw [hsnd]
      rfl

/-! ### The share object -/

/-- Members of the share payload, as chain triples. -/
def shareItems (name : String) (desc : Option String) (models : List String) :
    List (String × List Char × JValue) :=
  ("name", printStr name, JValue.jstr name)
    :: ((match desc with
        | some d => [("description", printStr d, JValue.jstr d)]
        | none => [])
      ++ [("models", printStrArrC models, JValue.jarr (models.map JValue.jstr))])

/-- The parsed share payload. -/
def shareJ (name : String) (desc : Option String) (models : List String) : JValue :=
  JValue.jobj ((shareItems name desc models).map (fun it => (it.1, it.2.2)))

theorem printShare_eq_memberText (name : String) (desc : Option String)
    (models : List String) :
    printShare name desc models
      = '{' :: (memberText [] [] (shareItems name desc models) ++ ['}']) := by
  cases desc with
  | none => simp [printShare, shareItems, memberText, List.append_assoc]
  | some d => simp [printShare, shareItems, memberText, List.append_assoc]

/-- Parsing the compact share payload. -/
theorem pv_share (name : String) (desc : Option String) (models : List String) :
    ∀ (g : Nat) (after : List Char),
      (printShare name desc models).length ≤ g → headOk after →
      parseValue g (printShare name desc models ++ after)
        = some (shareJ name desc models, after) := by
  intro g after hg _
  have hmt : printShare name desc models
      = '{' :: (memberText [] [] (shareItems name desc models) ++ ['}']) :=
    printShare_eq_memberText name desc models
  cases g with
  | zero =>
    rw [hmt] at hg
    simp at hg
  | succ f =>
    have hsh : printShare name desc models ++ after
        = '{' :: (memberText [] [] (shareItems name desc models) ++ ('}' :: after)) := by
      rw [hmt]
      simp [List.append_assoc]
    rw [hsh, parseValue_lbrace_bridge]
    obtain ⟨hd, tl2, hcons⟩ : ∃ hd tl2, shareItems name desc models = hd :: tl2 := ⟨_, _, rfl⟩
    rw [hcons]
    obtain ⟨tail, htail⟩ := skipWs_memberText_head [] [] (fun X => rfl) hd tl2 ('}' :: after)
    rw [htail]
    show (parseMembers f ('"' :: tail)).map (fun pr => (JValue.jobj pr.1, pr.2)) = _
    have hcg : parseMembers f ('"' :: tail)
        = parseMembers f (memberText [] [] (shareItems name desc models) ++ ('}' :: after)) := by
      apply parseMembers_congr
      rw [hcons, ← htail, skipWs_idem]
    rw [hcg]
    have hvals : ∀ it ∈ shareItems name desc models,
        ∀ (g' : Nat) (after' : List Char), it.2.1.length ≤ g' → headOk after' →
          parseValue g' (it.2.1 ++ after') = some (it.2.2, after') := by
      intro it hit g' after' hl ho
      cases desc with
      | none =>
        simp [shareItems] at hit
        rcases hit with h | h
        · subst h; exact pv_str name g' after' hl ho
        · subst h; exact pv_strArrC models g' after' hl ho
      | some d =>
        simp [shareItems] at hit
        rcases hit with h | h | h
        · subst h; exact pv_str name g' after' hl ho
        · subst h; exact pv_str d g' after' hl ho
        · subst h; exact pv_strArrC models g' after' hl ho
    have hbound : memberChainLen (shareItems name desc models) ≤ f := by
      have h1 := memberChainLen_le_text [] [] (shareItems name desc models)
        (by rw [hcons]; simp)
      have h2 := congrArg List.length hmt
      simp [List.length_append] at h2
      omega
    have hchain := parseMembers_chain [] [] [] (fun X => rfl) (fun X => rfl) (fun X => rfl)
      (shareItems name desc models) (by rw [hcons]; simp) f after hvals hbound
      (by simpa using headOk_rbrace after)

    simp only [List.nil_append] at hchain
    rw [hchain]
    rfl

/-! ### The export entry object -/

/-- Members of one export entry, as chain triples. -/
def entryItems (p : QuickPreset) : List (String × List Char × JValue) :=
  ("name", printStr p.name, JValue.jstr p.name)
    :: ((match p.description with
        | some d => [("description", printStr d, JValue.jstr d)]
        | none => [])
      ++ [("models", prettyArr 3 (p.models.map printStr),
            JValue.jarr (p.models.map JValue.jstr)),
          ("sourceType", printStr (sourceTypeStr p.sourceType),
            JValue.jstr (sourceTypeStr p.sourceType)),
          ("sourceId", printStr p.sourceId, JValue.jstr p.sourceId)]
      ++ (match p.isFavorite with
        | some b => [("isFavorite", printBool b, JValue.jbool b)]
        | none => []))

/-- The parsed entry object. -/
def entryJ (p : QuickPreset) : JValue :=
  JValue.jobj ((entryItems p).map (fun it => (it.1, it.2.2)))

theorem printExportEntry_eq (p : QuickPreset) :
    printExportEntry p
      = '{' :: (joinItemsI 3 ((entryItems p).map (fun it => prettyObjMember it.1 it.2.1))
          ++ nlInd 2 ++ ['}']) := by
  rw [show joinItemsI 3 ((entryItems p).map (fun it => prettyObjMember it.1 it.2.1))
      = memberText (nlInd 3) [' '] (entryItems p) from joinItemsI_eq_memberText 3 (entryItems p)]
  cases hd : p.description with
  | none =>
    cases hf : p.isFavorite with
    | none =>
      simp [printExportEntry, entryItems, prettyObj, prettyObjMember, memberText, hd, hf,
        joinItemsI, List.append_assoc, printBool]
    | some b =>
      simp [printExportEntry, entryItems, prettyObj, prettyObjMember, memberText, hd, hf,
        joinItemsI, List.append_assoc, printBool]
  | some d =>
    cases hf : p.isFavorite with
    | none =>
      simp [printExportEntry, entryItems, prettyObj, prettyObjMember, memberText, hd, hf,
        joinItemsI, List.append_assoc, printBool]
    | some b =>
      simp [printExportEntry, entryItems, prettyObj, prettyObjMember, memberText, hd, hf,
        joinItemsI, List.append_assoc, printBool]

/-- Parsing one indent-2 export entry. -/
theorem pv_entry (p : QuickPreset) : ∀ (g : Nat) (after : List Char),
    (printExportEntry p).length ≤ g → headOk after →
    parseValue g (printExportEntry p ++ after) = some (entryJ p, after) := by
  intro g after hg _
  have hmt : printExportEntry p
      = '{' :: (memberText (nlInd 3) [' '] (entryItems p) ++ nlInd 2 ++ ['}']) := by
    rw [printExportEntry_eq, joinItemsI_eq_memberText]
  cases g with
  | zero =>
    rw [hmt] at hg
    simp at hg
  | succ f =>
    have hsh : printExportEntry p ++ after
        = '{' :: (memberText (nlInd 3) [' '] (entryItems p) ++ (nlInd 2 ++ '}' :: after)) := by
      rw [hmt]
      simp [List.append_assoc]
    rw [hsh, parseValue_lbrace_bridge]
    obtain ⟨hd, tl2, hcons⟩ : ∃ hd tl2, entryItems p = hd :: tl2 := ⟨_, _, rfl⟩
    rw [hcons]
    obtain ⟨tail, htail⟩ := skipWs_memberText_head (nlInd 3) [' ']
      (fun X => skipWs_nlInd 3 X) hd tl2 (nlInd 2 ++ '}' :: after)
    rw [htail]
    show (parseMembers f ('"' :: tail)).map (fun pr => (JValue.jobj pr.1, pr.2)) = _
    have hcg : parseMembers f ('"' :: tail)
        = parseMembers f (memberText (nlInd 3) [' '] (entryItems p)
            ++ (nlInd 2 ++ '}' :: after)) := by
      apply parseMembers_congr
      rw [hcons, ← htail, skipWs_idem]
    rw [hcg]
    have hvals : ∀ it ∈ entryItems p,
        ∀ (g' : Nat) (after' : List Char), it.2.1.length ≤ g' → headOk after' →
          parseValue g' (it.2.1 ++ after') = some (it.2.2, after') := by
      intro it hit g' after' hl ho
      cases hdres : p.description with
      | none =>
        cases hfav : p.isFavorite with
        | none =>
          simp [entryItems, hdres, hfav] at hit
          rcases hit with h | h | h | h
          · subst h; exact pv_str p.name g' after' hl ho
          · subst h; exact pv_strArrP 3 p.models g' after' hl ho
          · subst h; exact pv_str (sourceTypeStr p.sourceType) g' after' hl ho
          · subst h; exact pv_str p.sourceId g' after' hl ho
        | some b =>
          simp [entryItems, hdres, hfav] at hit
          rcases hit with h | h | h | h | h
          · subst h; exact pv_str p.name g' after' hl ho
          · subst h; exact pv_strArrP 3 p.models g' after' hl ho
          · subst h; exact pv_str (sourceTypeStr p.sourceType) g' after' hl ho
          · subst h; exact pv_str p.sourceId g' after' hl ho
          · subst h; exact pv_bool b g' after' hl ho
      | some d =>
        cases hfav : p.isFavorite with
        | none =>
          simp [entryItems, hdres, hfav] at hit
          rcases hit with h | h | h | h | h
          · subst h; exact pv_str p.name g' after' hl ho
          · subst h; exact pv_str d g' after' hl ho
          · subst h; exact pv_strArrP 3 p.models g' after' hl ho
          · subst h; exact pv_str (sourceTypeStr p.sourceType) g' after' hl ho
          · subst h; exact pv_str p.sourceId g' after' hl ho
        | some b =>
          simp [entryItems, hdres, hfav] at hit
          rcases hit with h | h | h | h | h | h
          · subst h; exact pv_str p.name g' after' hl ho
          · subst h; exact pv_str d g' after' hl ho
          · subst h; exact pv_strArrP 3 p.models g' after' hl ho
          · subst h; exact pv_str (sourceTypeStr p.sourceType) g' after' hl ho
          · subst h; exact pv_str p.sourceId g' after' hl ho
          · subst h; exact pv_bool b g' after' hl ho
    have hbound : memberChainLen (entryItems p) ≤ f := by
      have h1 := memberChainLen_le_text (nlInd 3) [' '] (entryItems p)
        (by rw [hcons]; simp)
      have h2 := congrArg List.length hmt
      simp [List.length_append] at h2
      omega
    have hchain := parseMembers_chain (nlInd 3) [' '] (nlInd 2)
      (fun X => skipWs_nlInd 3 X) (fun X => rfl) (fun X => skipWs_nlInd 2 X)
      (entryItems p) (by rw [hcons]; simp) f after hvals hbound
      (headOk_nlInd 2 ('}' :: after))
    rw [hchain]
    rfl

/-! ### The presets array and the whole export document -/

/-- Entry chain items for a collection. -/
def entryArrItems (c : List QuickPreset) : List (List Char × JValue) :=
  c.map (fun p => (printExportEntry p, entryJ p))

theorem entryArrItems_fst (c : List QuickPreset) :
    (entryArrItems c).map (fun it => it.1) = c.map printExportEntry := by
  simp [entryArrItems, List.map_map, Function.comp]

theorem entryArrItems_snd (c : List QuickPreset) :
    (entryArrItems c).map (fun it => it.2) = c.map entryJ := by
  simp [entryArrItems, List.map_map, Function.comp]

theorem printExportEntry_len1 (p : QuickPreset) : 1 ≤ (printExportEntry p).length := by
  rw [printExportEntry_eq]
  simp

/-- Parsing the indent-2 presets array. -/
theorem pv_entriesArr (c : List QuickPreset) : ∀ (g : Nat) (after : List Char),
    (prettyArr 1 (c.map printExportEntry)).length ≤ g → headOk after →
    parseValue g (prettyArr 1 (c.map printExportEntry) ++ after)
      = some (JValue.jarr (c.map entryJ), after) := by
  intro g after hg _
  cases g with
  | zero => cases c <;> simp [prettyArr] at hg
  | succ f =>
    cases c with
    | nil => rfl
    | cons p t =>
      have hsh : prettyArr 1 ((p :: t).map printExportEntry) ++ after
          = '[' :: (joinItemsI 2 ((p :: t).map printExportEntry)
              ++ (nlInd 1 ++ ']' :: after)) := by
        simp [prettyArr, List.append_assoc]
      rw [hsh, parseValue_lbrack_bridge]
      have htext : joinItemsI 2 ((p :: t).map printExportEntry)
          = elemText (nlInd 2) (entryArrItems (p :: t)) := by
        rw [← entryArrItems_fst (p :: t)]
        exact joinItemsI_eq_elemText 2 (entryArrItems (p :: t))
      rw [htext]
      have hcons : entryArrItems (p :: t)
          = (printExportEntry p, entryJ p) :: entryArrItems t := by
        simp [entryArrItems]
      rw [hcons]
      obtain ⟨ec, etl, hec⟩ : ∃ ec etl, printExportEntry p = ec :: etl ∧ isWsC ec = false :=
        ⟨'{', _, printExportEntry_eq p, by decide⟩
      obtain ⟨tail, htail⟩ := skipWs_elemText_head (nlInd 2)
        (fun X => skipWs_nlInd 2 X)
        (printExportEntry p, entryJ p) (entryArrItems t) (nlInd 1 ++ ']' :: after)
        '{' ((joinItemsI 3 ((entryItems p).map (fun it => prettyObjMember it.1 it.2.1))
          ++ nlInd 2 ++ ['}'])) (printExportEntry_eq p) (by decide)
      rw [htail]
      show (parseElems f ('{' :: tail)).map (fun pr => (JValue.jarr pr.1, pr.2)) = _
      have hcg : parseElems f ('{' :: tail)
          = parseElems f (elemText (nlInd 2)
              ((printExportEntry p, entryJ p) :: entryArrItems t)
              ++ (nlInd 1 ++ ']' :: after)) := by
        apply parseElems_congr
        rw [← htail, skipWs_idem]
      rw [hcg]
      have hbound : elemChainLen ((printExportEntry p, entryJ p) :: entryArrItems t) ≤ f := by
        have h1 := elemChainLen_le_text (nlInd 2)
          ((printExportEntry p, entryJ p) :: entryArrItems t) (by simp)
        have h2 : (prettyArr 1 ((p :: t).map printExportEntry)).length
            = (joinItemsI 2 ((p :: t).map printExportEntry)).length
              + (nlInd 1).length + 2 := by
          simp [prettyArr]
          omega
        have h3 := congrArg List.length htext
        rw [hcons] at h3
        have h4 : 1 ≤ (nlInd 1).length := by simp [nlInd]
        omega
      have hvals : ∀ it ∈ (printExportEntry p, entryJ p) :: entryArrItems t,
          ∀ (g' : Nat) (after' : List Char), it.1.length ≤ g' → headOk after' →
            parseValue g' (it.1 ++ after') = some (it.2, after') := by
        intro it hit g' after' hl ho
        rcases List.mem_cons.mp hit with h | h
        · subst h; exact pv_entry p g' after' hl ho
        · obtain ⟨q, _, hq⟩ := List.mem_map.mp h
          subst hq
          exact pv_entry q g' after' hl ho
      have hchain := parseElems_chain (nlInd 2) (nlInd 1)
        (fun X => skipWs_nlInd 2 X) (fun X => skipWs_nlInd 1 X)
        ((printExportEntry p, entryJ p) :: entryArrItems t) (by simp) f after
        hvals
        (by
          intro it hit
          rcases List.mem_cons.mp hit with h | h
          · subst h; exact printExportEntry_len1 p
          · obtain ⟨q, _, hq⟩ := List.mem_map.mp h
            subst hq
            exact printExportEntry_len1 q)
        hbound
        (headOk_nlInd 1 (']' :: after))
      rw [hchain]
      have hsnd : ((printExportEntry p, entryJ p) :: entryArrItems t).map (fun it => it.2)
          = (p :: t).map entryJ := by
        rw [← hcons]
        exact entryArrItems_snd (p :: t)
      rw [hsnd]
      rfl

/-- Members of the export document, as chain triples. -/
def docItems (nowIso : String) (c : List QuickPreset) :
    List (String × List Char × JValue) :=
  [("version", ['1'], JValue.jnum ['1']),
   ("exportedAt", printStr nowIso, JValue.jstr nowIso),
   ("presets", prettyArr 1 (c.map printExportEntry), JValue.jarr (c.map entryJ))]

/-- The parsed export document. -/
def exportJ (nowIso : String) (c : List QuickPreset) : JValue :=
  JValue.jobj ((docItems nowIso c).map (fun it => (it.1, it.2.2)))

theorem exportPresets_data (nowIso : String) (c : List QuickPreset) :
    (exportPresets nowIso c).data
      = '{' :: (memberText (nlInd 1) [' '] (docItems nowIso c) ++ nlInd 0 ++ ['}']) := by
  show prettyObj 0 [prettyObjMember "version" ['1'],
      prettyObjMember "exportedAt" (printStr nowIso),
      prettyObjMember "presets" (prettyArr 1 (c.map printExportEntry))] = _
  simp [prettyObj, joinItemsI, memberText, docItems, prettyObjMember, List.append_assoc]

/-- Parsing the whole indent-2 export document. -/
theorem pv_doc (nowIso : String) (c : List QuickPreset) : ∀ (g : Nat) (after : List Char),
    ('{' :: (memberText (nlInd 1) [' '] (docItems nowIso c) ++ nlInd 0 ++ ['}'])).length ≤ g →
    headOk after →
    parseValue g (('{' :: (memberText (nlInd 1) [' '] (docItems nowIso c)
        ++ nlInd 0 ++ ['}'])) ++ after)
      = some (exportJ nowIso c, after) := by
  intro g after hg _
  cases g with
  | zero => simp at hg
  | succ f =>
    have hsh : ('{' :: (memberText (nlInd 1) [' '] (docItems nowIso c)
          ++ nlInd 0 ++ ['}'])) ++ after
        = '{' :: (memberText (nlInd 1) [' '] (docItems nowIso c)
            ++ (nlInd 0 ++ '}' :: after)) := by
      simp [List.append_assoc]
    rw [hsh, parseValue_lbrace_bridge]
    obtain ⟨hd, tl2, hcons⟩ : ∃ hd tl2, docItems nowIso c = hd :: tl2 := ⟨_, _, rfl⟩
    rw [hcons]
    obtain ⟨tail, htail⟩ := skipWs_memberText_head (nlInd 1) [' ']
      (fun X => skipWs_nlInd 1 X) hd tl2 (nlInd 0 ++ '}' :: after)
    rw [htail]
    show (parseMembers f ('"' :: tail)).map (fun pr => (JValue.jobj pr.1, pr.2)) = _
    have hcg : parseMembers f ('"' :: tail)
        = parseMembers f (memberText (nlInd 1) [' '] (docItems nowIso c)
            ++ (nlInd 0 ++ '}' :: after)) := by
      apply parseMembers_congr
      rw [hcons, ← htail, skipWs_idem]
    rw [hcg]
    have hvals : ∀ it ∈ docItems nowIso c,
        ∀ (g' : Nat) (after' : List Char), it.2.1.length ≤ g' → headOk after' →
          parseValue g' (it.2.1 ++ after') = some (it.2.2, after') := by
      intro it hit g' after' hl ho
      simp [docItems] at hit
      rcases hit with h | h | h
      · subst h; exact pv_num1 g' after' hl ho
      · subst h; exact pv_str nowIso g' after' hl ho
      · subst h; exact pv_entriesArr c g' after' hl ho
    have hbound : memberChainLen (docItems nowIso c) ≤ f := by
      have h1 := memberChainLen_le_text (nlInd 1) [' '] (docItems nowIso c)
        (by rw [hcons]; simp)
      simp only [List.length_cons, List.length_append] at hg
      omega
    have hchain := parseMembers_chain (nlInd 1) [' '] (nlInd 0)
      (fun X => skipWs_nlInd 1 X) (fun X => rfl) (fun X => skipWs_nlInd 0 X)
      (docItems nowIso c) (by rw [hcons]; simp) f after hvals hbound
      (headOk_nlInd 0 ('}' :: after))
    rw [hchain]
    rfl

theorem headOk_nil : headOk [] := by
  intro c hc
  simp at hc

/-- `JSON.parse` inverts `exportPresets` for every collection. -/
theorem jsonParse_export (nowIso : String) (c : List QuickPreset) :
    jsonParse (exportPresets nowIso c) = some (exportJ nowIso c) := by
  unfold jsonParse
  have hL : (exportPresets nowIso c).length
      = ('{' :: (memberText (nlInd 1) [' '] (docItems nowIso c) ++ nlInd 0 ++ ['}'])).length := by
    rw [show (exportPresets nowIso c).length = (exportPresets nowIso c).data.length from rfl,
      exportPresets_data]
  have hdoc : (exportPresets nowIso c).data
      = ('{' :: (memberText (nlInd 1) [' '] (docItems nowIso c) ++ nlInd 0 ++ ['}'])) ++ [] := by
    rw [exportPresets_data, List.append_nil]
  rw [hdoc, pv_doc nowIso c (2 * (exportPresets nowIso c).length + 4) [] (by omega) headOk_nil]
  rfl

/-! ### base64 round trip, Latin-1 closure of the printer, and the URL marker -/

theorem b64CharVal_b64Char_fin : ∀ n : Fin 64, b64CharVal (b64Char n.val) = some n.val := by
  decide

theorem b64CharVal_b64Char (n : Nat) (h : n < 64) : b64CharVal (b64Char n) = some n :=
  b64CharVal_b64Char_fin ⟨n, h⟩

theorem b64Char_ne_pad_fin : ∀ n : Fin 64, b64Char n.val ≠ '=' := by
  decide

theorem b64Char_ne_pad (n : Nat) (h : n < 64) : b64Char n ≠ '=' :=
  b64Char_ne_pad_fin ⟨n, h⟩

/-- Decoding inverts encoding on byte lists. -/
theorem b64_roundtrip : ∀ (bs : List Nat), (∀ b ∈ bs, b < 256) →
    b64Decode (b64Encode bs) = some bs := by
  have H : ∀ (n : Nat) (bs : List Nat), bs.length ≤ n → (∀ b ∈ bs, b < 256) →
      b64Decode (b64Encode bs) = some bs := by
    intro n
    induction n with
    | zero =>
      intro bs hlen _
      have : bs = [] := List.eq_nil_of_length_eq_zero (by omega)
      subst this
      rfl
    | succ m ih =>
      intro bs hlen hb
      cases bs with
      | nil => rfl
      | cons a t =>
        have ha : a < 256 := hb a (List.mem_cons_self a t)
        cases t with
        | nil =>
          show b64Decode [b64Char (a / 4), b64Char ((a % 4) * 16), '=', '='] = some [a]
          simp only [b64Decode, b64CharVal_b64Char (a / 4) (by omega),
            b64CharVal_b64Char ((a % 4) * 16) (by omega)]
          rw [if_pos (by simp)]
          have : a / 4 * 4 + a % 4 * 16 / 16 = a := by omega
          rw [this]
        | cons b t2 =>
          have hbb : b < 256 := hb b (List.mem_cons_of_mem a (List.mem_cons_self b t2))
          cases t2 with
          | nil =>
            show b64Decode [b64Char (a / 4), b64Char ((a % 4) * 16 + b / 16),
                b64Char ((b % 16) * 4), '='] = some [a, b]
            simp only [b64Decode, b64CharVal_b64Char (a / 4) (by omega),
              b64CharVal_b64Char ((a % 4) * 16 + b / 16) (by omega),
              b64CharVal_b64Char ((b % 16) * 4) (by omega)]
            rw [if_neg (fun hcon => b64Char_ne_pad ((b % 16) * 4) (by omega) hcon.1)]
            rw [if_pos (by simp)]
            have h1 : a / 4 * 4 + (a % 4 * 16 + b / 16) / 16 = a := by omega
            have h2 : (a % 4 * 16 + b / 16) % 16 * 16 + b % 16 * 4 / 4 = b := by omega
            rw [h1, h2]
          | cons cc t3 =>
            have hcc : cc < 256 := hb cc (by simp)
            have ht3 : ∀ x ∈ t3, x < 256 := fun x hx => hb x (by simp [hx])
            show b64Decode (b64Char (a / 4) :: b64Char ((a % 4) * 16 + b / 16)
                :: b64Char ((b % 16) * 4 + cc / 64) :: b64Char (cc % 64)
                :: b64Encode t3) = some (a :: b :: cc :: t3)
            simp only [b64Decode, b64CharVal_b64Char (a / 4) (by omega),
              b64CharVal_b64Char ((a % 4) * 16 + b / 16) (by omega),
              b64CharVal_b64Char ((b % 16) * 4 + cc / 64) (by omega),
              b64CharVal_b64Char (cc % 64) (by omega)]
            rw [if_neg (fun hcon => b64Char_ne_pad ((b % 16) * 4 + cc / 64) (by omega) hcon.1)]
            rw [if_neg (fun hcon => b64Char_ne_pad (cc % 64) (by omega) hcon.1)]
            rw [ih t3 (by simp at hlen; omega) ht3]
            have h1 : a / 4 * 4 + (a % 4 * 16 + b / 16) / 16 = a := by omega
            have h2 : (a % 4 * 16 + b / 16) % 16 * 16 + (b % 16 * 4 + cc / 64) / 4 = b := by
              omega
            have h3 : (b % 16 * 4 + cc / 64) % 4 * 64 + cc % 64 = cc := by omega
            rw [h1, h2, h3]
            rfl
  intro bs hb
  exact H bs.length bs (Nat.le_refl _) hb

/-- `atob` undoes `btoa` on Latin-1 strings. -/
theorem atob_btoa (s : String) (h : ∀ c ∈ s.data, c.toNat ≤ 0xFF) :
    btoa s = some (String.mk (b64Encode (s.data.map Char.toNat))) ∧
    atob (String.mk (b64Encode (s.data.map Char.toNat))) = some s := by
  constructor
  · unfold btoa
    rw [if_pos]
    rw [List.all_eq_true]
    intro c hc
    simpa using h c hc
  · unfold atob
    show (b64Decode (b64Encode (s.data.map Char.toNat))).map _ = some s
    rw [b64_roundtrip (s.data.map Char.toNat) (by
      intro bn hbn
      obtain ⟨c, hc, hcn⟩ := List.mem_map.mp hbn
      have := h c hc
      omega)]
    have hmap : (s.data.map Char.toNat).map Char.ofNat = s.data := by
      rw [List.map_map]
      have hco : (Char.ofNat ∘ Char.toNat) = id := by
        funext c
        simp [Function.comp, Char.ofNat_toNat]
      rw [hco, List.map_id]
    show some (String.mk ((s.data.map Char.toNat).map Char.ofNat)) = some s
    rw [hmap]

/-- Latin-1 character lists. -/
def latin1 (l : List Char) : Prop := ∀ c ∈ l, c.toNat ≤ 0xFF

instance (l : List Char) : Decidable (latin1 l) := by
  unfold latin1
  infer_instance

theorem latin1_append (a b : List Char) (ha : latin1 a) (hb : latin1 b) :
    latin1 (a ++ b) := by
  intro c hc
  rcases List.mem_append.mp hc with h | h
  · exact ha c h
  · exact hb c h

theorem latin1_cons (c : Char) (l : List Char) (hc : c.toNat ≤ 0xFF) (hl : latin1 l) :
    latin1 (c :: l) := by
  intro x hx
  rcases List.mem_cons.mp hx with h | h
  · subst h; exact hc
  · exact hl x h

theorem hexDigitChar_latin1 : ∀ n : Fin 16, (hexDigitChar n.val).toNat ≤ 0xFF := by
  decide

theorem escapeChar_latin1 (c : Char) (hc : c.toNat ≤ 0xFF) : latin1 (escapeChar c) := by
  unfold escapeChar
  split
  · decide
  · split
    · decide
    · split
      · decide
      · split
        · decide
        · split
          · decide
          · split
            · decide
            · split
              · decide
              · split
                · rename_i h8
                  intro x hx
                  simp only [List.mem_cons, List.not_mem_nil, or_false] at hx
                  rcases hx with h | h | h | h | h | h
                  · subst h; decide
                  · subst h; decide
                  · subst h; decide
                  · subst h; decide
                  · subst h; exact hexDigitChar_latin1 ⟨c.toNat / 16, by omega⟩
                  · subst h; exact hexDigitChar_latin1 ⟨c.toNat % 16, by omega⟩
                · intro x hx
                  simp at hx
                  subst hx
                  exact hc

theorem escapeList_latin1 (l : List Char) (h : latin1 l) : latin1 (escapeList l) := by
  induction l with
  | nil => intro x hx; cases hx
  | cons c cs ih =>
    rw [escapeList_cons]
    exact latin1_append _ _ (escapeChar_latin1 c (h c (List.mem_cons_self c cs)))
      (ih (fun x hx => h x (List.mem_cons_of_mem c hx)))

theorem printStr_latin1 (s : String) (h : latin1 s.data) : latin1 (printStr s) := by
  unfold printStr
  exact latin1_cons _ _ (by decide)
    (latin1_append _ _ (escapeList_latin1 s.data h) (by intro x hx; simp at hx; subst hx; decide))

theorem printStrArrC_latin1 (ss : List String) (h : ∀ m ∈ ss, latin1 m.data) :
    latin1 (printStrArrC ss) := by
  unfold printStrArrC
  apply latin1_cons _ _ (by decide)
  apply latin1_append
  · induction ss with
    | nil => intro x hx; cases hx
    | cons m t ih =>
      cases t with
      | nil =>
        show latin1 (joinComma [printStr m])
        simpa [joinComma] using printStr_latin1 m (h m (by simp))
      | cons m2 t2 =>
        show latin1 (printStr m ++ ',' :: joinComma ((m2 :: t2).map printStr))
        apply latin1_append _ _ (printStr_latin1 m (h m (List.mem_cons_self m _)))
        apply latin1_cons _ _ (by decide)
        exact ih (fun x hx => h x (List.mem_cons_of_mem m hx))
  · intro x hx
    simp at hx
    subst hx
    decide

theorem printShare_latin1 (name : String) (desc : Option String) (models : List String)
    (hn : latin1 name.data) (hd : ∀ d, desc = some d → latin1 d.data)
    (hm : ∀ m ∈ models, latin1 m.data) :
    latin1 (printShare name desc models) := by
  unfold printShare
  apply latin1_append
  apply latin1_append
  apply latin1_append
  · apply latin1_append
    · exact latin1_cons _ _ (by decide) (printStr_latin1 "name" (by decide))
    · exact latin1_cons _ _ (by decide) (printStr_latin1 name hn)
  · cases desc with
    | none => intro x hx; cases hx
    | some d =>
      apply latin1_append
      · exact latin1_cons _ _ (by decide) (printStr_latin1 "description" (by decide))
      · exact latin1_cons _ _ (by decide) (printStr_latin1 d (hd d rfl))
  · apply latin1_append
    · exact latin1_cons _ _ (by decide) (printStr_latin1 "models" (by decide))
    · exact latin1_cons _ _ (by decide) (printStrArrC_latin1 models hm)
  · intro x hx
    simp at hx
    subst hx
    decide

/-- First-occurrence marker split on a hash-free prefix. -/
theorem splitAtMarker_append (pre : List Char) (hpre : ∀ c ∈ pre, c ≠ '#')
    (suf : List Char) :
    splitAtMarker (pre ++ (presetMarker ++ suf)) = some suf := by
  induction pre with
  | nil =>
    show splitAtMarker ('#' :: (['p', 'r', 'e', 's', 'e', 't', '='] ++ suf)) = some suf
    simp only [splitAtMarker]
    rw [if_pos (by
      rw [List.isPrefixOf_iff_prefix]
      exact List.prefix_append presetMarker suf)]
    rfl
  | cons c pre2 ih =>
    have hc : c ≠ '#' := hpre c (List.mem_cons_self c pre2)
    show splitAtMarker (c :: (pre2 ++ (presetMarker ++ suf))) = some suf
    simp only [splitAtMarker]
    rw [if_neg (by
      simp only [presetMarker, List.isPrefixOf]
      intro hcon
      rw [Bool.and_eq_true] at hcon
      exact hc ((beq_iff_eq.mp hcon.1).symm))]
    exact ih (fun x hx => hpre x (List.mem_cons_of_mem c hx))

/-- `JSON.parse` inverts the compact share printer. -/
theorem jsonParse_share (name : String) (desc : Option String) (models : List String) :
    jsonParse (String.mk (printShare name desc models)) = some (shareJ name desc models) := by
  unfold jsonParse
  have hdoc : (String.mk (printShare name desc models)).data
      = printShare name desc models ++ [] := by
    rw [List.append_nil]
  rw [hdoc, pv_share name desc models
    (2 * (String.mk (printShare name desc models)).length + 4) []
    (by
      have : (String.mk (printShare name desc models)).length
          = (printShare name desc models).length := rfl
      omega)
    headOk_nil]
  rfl

/-! ## Claim C4: the share-link round trip -/

theorem shareJ_name (name : String) (desc : Option String) (models : List String) :
    jsGetProp (shareJ name desc models) "name" = Except.ok (some (JValue.jstr name)) := by
  cases desc <;> rfl

theorem shareJ_models (name : String) (desc : Option String) (models : List String) :
    jsGetProp (shareJ name desc models) "models"
      = Except.ok (some (JValue.jarr (models.map JValue.jstr))) := by
  cases desc <;> rfl

theorem shareJ_description (name : String) (desc : Option String) (models : List String) :
    jsGetProp (shareJ name desc models) "description"
      = Except.ok (desc.map JValue.jstr) := by
  cases desc <;> rfl

/-- A preset with the empty name: the encoder accepts it but the decoder's
`!data.name` truthiness check rejects it. -/
def c4empty : QuickPreset :=
  { id := "p-em", sourceId := "s", sourceType := SourceType.custom,
    name := "", description := none, models := ["m"],
    isModified := false, isFavorite := none, usageCount := none, lastUsedAt := none }

/-- A preset whose name contains a character above U+00FF, on which `btoa`
throws `InvalidCharacterError`. -/
def c4uni : QuickPreset :=
  { id := "p-un", sourceId := "s", sourceType := SourceType.custom,
    name := "snow☃", description := none, models := ["m"],
    isModified := false, isFavorite := none, usageCount := none, lastUsedAt := none }

/-- Counterexample to C4 as stated: with the empty name the encoder
produces a URL the decoder rejects (`null`), and with a non-Latin-1 name
the encoder itself throws, contradicting the claim's "never throws / never
returns null ... including the empty name and non-Latin-1 characters". -/
theorem c4_counterexample :
    ((generateShareableUrl "https://x.test/app" c4empty).map parsePresetFromUrl
      = some none) ∧
    generateShareableUrl "https://x.test/app" c4uni = none :=
  ⟨rfl, rfl⟩

/-- C4 (amended): for a hash-free base URL and a record whose name is
nonempty and whose name/description/models are Latin-1, encoding succeeds
and decoding the produced URL returns exactly
`\x7bname: r.name, description: r.description, models: r.models\x7d`. -/
theorem c4_share_roundtrip (baseUrl : String) (r : QuickPreset)
    (hbase : ∀ ch ∈ baseUrl.data, ch ≠ '#')
    (hname : r.name ≠ "")
    (hn : latin1 r.name.data)
    (hd : ∀ d, r.description = some d → latin1 d.data)
    (hm : ∀ m ∈ r.models, latin1 m.data) :
    ∃ url, generateShareableUrl baseUrl r = some url ∧
      parsePresetFromUrl url = some
        { name := JValue.jstr r.name,
          description := r.description.map JValue.jstr,
          models := JValue.jarr (r.models.map JValue.jstr) } := by
  have hlat : ∀ c ∈ (String.mk (printShare r.name r.description r.models)).data,
      c.toNat ≤ 0xFF :=
    printShare_latin1 r.name r.description r.models hn hd hm
  obtain ⟨henc, hdec⟩ :=
    atob_btoa (String.mk (printShare r.name r.description r.models)) hlat
  refine ⟨baseUrl ++ "#preset=" ++ String.mk (b64Encode
    ((String.mk (printShare r.name r.description r.models)).data.map Char.toNat)),
    ?_, ?_⟩
  · unfold generateShareableUrl
    rw [henc]
    rfl
  · have hdata : (baseUrl ++ "#preset=" ++ String.mk (b64Encode
        ((String.mk (printShare r.name r.description r.models)).data.map Char.toNat))).data
        = baseUrl.data ++ (presetMarker ++ b64Encode
            ((String.mk (printShare r.name r.description r.models)).data.map Char.toNat)) := by
      rw [← List.append_assoc]
      rfl
    have hsplit : splitAtMarker (baseUrl ++ "#preset=" ++ String.mk (b64Encode
        ((String.mk (printShare r.name r.description r.models)).data.map Char.toNat))).data
        = some (b64Encode
            ((String.mk (printShare r.name r.description r.models)).data.map Char.toNat)) := by
      rw [hdata]
      exact splitAtMarker_append baseUrl.data hbase _
    have hatob : atob (String.mk (b64Encode
        ((String.mk (printShare r.name r.description r.models)).data.map Char.toNat)))
        = some (String.mk (printShare r.name r.description r.models)) := hdec
    have htr : (r.name != "") = true := bne_iff_ne.mpr hname
    simp only [parsePresetFromUrl, hsplit, hatob, jsonParse_share,
      shareJ_name, shareJ_models, shareJ_description, jsTruthy, jsTruthyV, isArrJ,
      htr, Bool.not_true, Bool.or_self, Bool.false_or]
    rfl

/-! ## Claim C5: the export/import round trip -/

theorem exportJ_presets (nowIso : String) (c : List QuickPreset) :
    jsGetProp (exportJ nowIso c) "presets"
      = Except.ok (some (JValue.jarr (c.map entryJ))) := rfl

theorem entryJ_sourceId (q : QuickPreset) :
    jsGetProp (entryJ q) "sourceId" = Except.ok (some (JValue.jstr q.sourceId)) := by
  obtain ⟨i, s, t, n, d, m, im, f, u, l⟩ := q
  cases d <;> cases f <;> rfl

theorem entryJ_sourceType (q : QuickPreset) :
    jsGetProp (entryJ q) "sourceType"
      = Except.ok (some (JValue.jstr (sourceTypeStr q.sourceType))) := by
  obtain ⟨i, s, t, n, d, m, im, f, u, l⟩ := q
  cases d <;> cases f <;> rfl

theorem entryJ_name (q : QuickPreset) :
    jsGetProp (entryJ q) "name" = Except.ok (some (JValue.jstr q.name)) := by
  obtain ⟨i, s, t, n, d, m, im, f, u, l⟩ := q
  cases d <;> cases f <;> rfl

theorem entryJ_description (q : QuickPreset) :
    jsGetProp (entryJ q) "description"
      = Except.ok (q.description.map JValue.jstr) := by
  obtain ⟨i, s, t, n, d, m, im, f, u, l⟩ := q
  cases d <;> cases f <;> rfl

theorem entryJ_models (q : QuickPreset) :
    jsGetProp (entryJ q) "models"
      = Except.ok (some (JValue.jarr (q.models.map JValue.jstr))) := by
  obtain ⟨i, s, t, n, d, m, im, f, u, l⟩ := q
  cases d <;> cases f <;> rfl

theorem entryJ_isFavorite (q : QuickPreset) :
    jsGetProp (entryJ q) "isFavorite"
      = Except.ok (q.isFavorite.map JValue.jbool) := by
  obtain ⟨i, s, t, n, d, m, im, f, u, l⟩ := q
  cases d <;> cases f <;> rfl

theorem jsOr_truthy (v b : JValue) (h : jsTruthyV v = true) : jsOr (some v) b = v := by
  unfold jsOr
  simp [h]

/-- The record `importPresets` rebuilds from the exported form of `q`, at
JavaScript value level: same name, description, models, sourceType and
sourceId, a caller-chosen fresh id, `isModified = false`, and `isFavorite`
collapsed to a present boolean (`false` when it was absent). -/
def expectedImport (idv : String) (q : QuickPreset) : ImportedPreset :=
  { id := idv
    sourceId := JValue.jstr q.sourceId
    sourceType := JValue.jstr (sourceTypeStr q.sourceType)
    name := some (JValue.jstr q.name)
    description := q.description.map JValue.jstr
    models := JValue.jarr (q.models.map JValue.jstr)
    isModified := false
    isFavorite := JValue.jbool (q.isFavorite.getD false) }

theorem importEntry_entryJ (gen : Nat → String) (now k : Nat) (q : QuickPreset)
    (hsid : q.sourceId ≠ "") :
    importEntry gen now k (entryJ q) = Except.ok (expectedImport (gen k) q) := by
  rw [importEntry_eq gen now k (entryJ q) _ _ _ _ _ _
    (entryJ_sourceId q) (entryJ_sourceType q) (entryJ_name q)
    (entryJ_description q) (entryJ_models q) (entryJ_isFavorite q)]
  rw [jsOr_truthy _ _ (show jsTruthyV (JValue.jstr q.sourceId) = true from bne_iff_ne.mpr hsid),
    jsOr_truthy _ _ (show jsTruthyV (JValue.jstr (sourceTypeStr q.sourceType)) = true by
      cases q.sourceType <;> rfl),
    jsOr_truthy _ _ (show jsTruthyV (JValue.jarr (q.models.map JValue.jstr)) = true from rfl)]
  have hfav : jsOr (q.isFavorite.map JValue.jbool) (JValue.jbool false)
      = JValue.jbool (q.isFavorite.getD false) := by
    cases q.isFavorite with
    | none => rfl
    | some bb => cases bb <;> rfl
  rw [hfav]
  rfl

/-- The list of records import rebuilds, ids drawn from the stream at `k`. -/
def importedOf (gen : Nat → String) : Nat → List QuickPreset → List ImportedPreset
  | _, [] => []
  | k, q :: t => expectedImport (gen k) q :: importedOf gen (k + 1) t

theorem importList_entryJ (gen : Nat → String) (now : Nat) :
    ∀ (c : List QuickPreset) (k : Nat), (∀ p ∈ c, p.sourceId ≠ "") →
      importList gen now k (c.map entryJ) = Except.ok (importedOf gen k c) := by
  intro c
  induction c with
  | nil => intro k _; rfl
  | cons q t ih =>
    intro k h
    show importList gen now k (entryJ q :: t.map entryJ) = _
    unfold importList
    rw [importEntry_entryJ gen now k q (h q (by simp)),
      ih (k + 1) (fun p hp => h p (by simp [hp]))]
    rfl

theorem importedOf_length (gen : Nat → String) :
    ∀ (c : List QuickPreset) (k : Nat), (importedOf gen k c).length = c.length := by
  intro c
  induction c with
  | nil => intro k; rfl
  | cons q t ih =>
    intro k
    show (importedOf gen (k + 1) t).length + 1 = t.length + 1
    rw [ih (k + 1)]

theorem importedOf_get (gen : Nat → String) :
    ∀ (c : List QuickPreset) (k i : Nat),
      (importedOf gen k c).get? i
        = (c.get? i).map (fun q => expectedImport (gen (k + i)) q) := by
  intro c
  induction c with
  | nil => intro k i; cases i <;> rfl
  | cons q t ih =>
    intro k i
    cases i with
    | zero => rfl
    | succ j =>
      show (importedOf gen (k + 1) t).get? j
          = (t.get? j).map (fun q => expectedImport (gen (k + (j + 1))) q)
      rw [ih (k + 1) j]
      have h2 : (k + 1) + j = k + (j + 1) := by omega
      rw [h2]

theorem importedOf_map_id (gen : Nat → String) :
    ∀ (c : List QuickPreset) (k : Nat),
      (importedOf gen k c).map (fun r => r.id)
        = (List.range c.length).map (fun i => gen (k + i)) := by
  intro c
  induction c with
  | nil => intro k; rfl
  | cons q t ih =>
    intro k
    have hlen : (q :: t).length = t.length + 1 := rfl
    rw [hlen, List.range_succ_eq_map]
    simp only [importedOf, List.map_cons, List.map_map]
    rw [ih (k + 1)]
    congr 1
    apply List.map_congr_left
    intro i _
    show gen ((k + 1) + i) = gen (k + Nat.succ i)
    have h2 : (k + 1) + i = k + Nat.succ i := by omega
    rw [h2]

/-- A record whose `sourceId` is empty and whose `isFavorite` is absent. -/
def c5preset : QuickPreset :=
  { id := "orig-1", sourceId := "", sourceType := SourceType.custom,
    name := "X", description := none, models := [],
    isModified := false, isFavorite := none, usageCount := none, lastUsedAt := none }

set_option maxRecDepth 10000

/-- Counterexample to C5 as stated: exporting and re-importing a record
with an empty `sourceId` and an absent `isFavorite` yields
`sourceId = "imported-<now>"` and an explicit `isFavorite = false`, so the
`(…, sourceId, isFavorite)` tuple is not preserved. -/
theorem c5_counterexample :
    (importPresets genW 7 (exportPresets "t" [c5preset])).map
        (fun rs => rs.map (fun r => (r.sourceId, r.isFavorite)))
      = some [(JValue.jstr "imported-7", JValue.jbool false)] ∧
    c5preset.sourceId = "" ∧ c5preset.isFavorite = none ∧
    JValue.jstr "imported-7" ≠ JValue.jstr "" :=
  ⟨rfl, rfl, rfl, by intro h; injection h with h2; exact absurd h2 (by decide)⟩

/-- C5 (amended): when every exported record has a nonempty `sourceId` and
the host id stream is injective and avoids the original ids, import of
export succeeds and returns, in order, one record per original with the
same name, description, models, sourceType and sourceId (see
`expectedImport`), `isFavorite` defaulted to an explicit boolean, and
fresh, pairwise-distinct ids. -/
theorem c5_export_import_roundtrip (gen : Nat → String) (now : Nat) (nowIso : String)
    (c : List QuickPreset)
    (hsid : ∀ p ∈ c, p.sourceId ≠ "")
    (hinj : ∀ i j, i < c.length → j < c.length → gen i = gen j → i = j)
    (hfresh : ∀ i, i < c.length → ∀ q ∈ c, gen i ≠ q.id) :
    importPresets gen now (exportPresets nowIso c) = some (importedOf gen 0 c) ∧
    (importedOf gen 0 c).length = c.length ∧
    (∀ i, (importedOf gen 0 c).get? i
        = (c.get? i).map (fun q => expectedImport (gen i) q)) ∧
    ((importedOf gen 0 c).map (fun r => r.id)).Nodup ∧
    (∀ r ∈ importedOf gen 0 c, ∀ q ∈ c, r.id ≠ q.id) := by
  have hpar := jsonParse_export nowIso c
  have hpr := exportJ_presets nowIso c
  have hlist := importList_entryJ gen now c 0 hsid
  refine ⟨?_, importedOf_length gen c 0, ?_, ?_, ?_⟩
  · simp [importPresets, hpar, hpr, jsTruthy, jsTruthyV, isArrJ, hlist]
  · intro i
    rw [importedOf_get gen c 0 i]
    simp
  · rw [importedOf_map_id gen c 0]
    have hz : (List.range c.length).map (fun i => gen (0 + i))
        = (List.range c.length).map (fun i => gen i) := by
      apply List.map_congr_left
      intro i _
      rw [Nat.zero_add]
    rw [hz]
    apply List.Nodup.map_on
    · intro i hi j hj hij
      exact hinj i j (List.mem_range.mp hi) (List.mem_range.mp hj) hij
    · exact List.nodup_range _
  · intro r hr q hq
    have hmem : r.id ∈ (importedOf gen 0 c).map (fun x => x.id) :=
      List.mem_map_of_mem _ hr
    rw [importedOf_map_id gen c 0] at hmem
    obtain ⟨i, hi, hgi⟩ := List.mem_map.mp hmem
    rw [← hgi, Nat.zero_add]
    exact hfresh i (List.mem_range.mp hi) q hq

/-- The amended C5 on a concrete one-record collection. -/
theorem c5_export_import_roundtrip_witness :
    ((∀ p ∈ [c1preset], p.sourceId ≠ "") ∧
      (∀ i j, i < [c1preset].length → j < [c1preset].length → genW i = genW j → i = j) ∧
      (∀ i, i < [c1preset].length → ∀ q ∈ [c1preset], genW i ≠ q.id)) ∧
    (importPresets genW 3 (exportPresets "t" [c1preset])
        = some (importedOf genW 0 [c1preset]) ∧
      (importedOf genW 0 [c1preset]).length = [c1preset].length) := by
  have hsid : ∀ p ∈ [c1preset], p.sourceId ≠ "" := by decide
  have hinj : ∀ i j, i < [c1preset].length → j < [c1preset].length →
      genW i = genW j → i = j := by
    intro i j hi hj _
    simp only [List.length_cons, List.length_nil] at hi hj
    omega
  have hfresh : ∀ i, i < [c1preset].length → ∀ q ∈ [c1preset], genW i ≠ q.id := by
    intro i hi q hq
    simp only [List.length_cons, List.length_nil] at hi
    have hi0 : i = 0 := by omega
    subst hi0
    have hq1 : q = c1preset := by simpa using hq
    subst hq1
    decide
  have h := c5_export_import_roundtrip genW 3 "t" [c1preset] hsid hinj hfresh
  exact ⟨⟨hsid, hinj, hfresh⟩, h.1, h.2.1⟩

/-- The amended C4 on a concrete record and base URL. -/
theorem c4_share_roundtrip_witness :
    (∀ ch ∈ ("https://x.test/app" : String).data, ch ≠ '#') ∧
    c1preset.name ≠ "" ∧ latin1 c1preset.name.data ∧
    (∀ d, c1preset.description = some d → latin1 d.data) ∧
    (∀ m ∈ c1preset.models, latin1 m.data) ∧
    ∃ url, generateShareableUrl "https://x.test/app" c1preset = some url ∧
      parsePresetFromUrl url = some
        { name := JValue.jstr c1preset.name,
          description := c1preset.description.map JValue.jstr,
          models := JValue.jarr (c1preset.models.map JValue.jstr) } :=
  ⟨by decide, by decide, by decide,
    (by intro d hdq; exact Option.noConfusion hdq),
    by decide,
    c4_share_roundtrip "https://x.test/app" c1preset (by decide) (by decide) (by decide)
      (by intro d hdq; exact Option.noConfusion hdq) (by decide)⟩

end ManusQuickPresets
